import Mathlib

/-!
# bentofs extended-attribute bridge (`xattr.c`)

A shallow embedding of the four dispatchers `bento_setxattr`, `bento_getxattr`,
`bento_listxattr`, `bento_removexattr`, of the list validator
`bento_verify_xattr_list` and of the handler entry points `bento_xattr_get` /
`bento_xattr_set`, followed by theorems about them.

Conventions of the embedding:

* C integers are mathematical integers; a conversion to a narrower C type is
  written out (`int_cast`, `size_t_add`, `size_t_sub`, `% 2^32`).
* A pointer to bytes is the memory behind it, `Mem = Nat → Nat` (byte at each
  offset); only NUL-ness of a byte is ever inspected.
* The connection, the backend's private state and a trace of the externally
  visible events (backend calls, attribute invalidation, ctime update) are
  passed explicitly as a `World`.
* The backend table `fc->fs_ops` is an arbitrary record of functions over an
  arbitrary backend state `β`: every deterministic backend is an instance.
-/

namespace Bento

/-! ## Constants of the host environment -/

/-- Value of `EIO` in the Linux errno headers. -/
def EIO : Int := 5

/-- Value of `EACCES` in the Linux errno headers. -/
def EACCES : Int := 13

/-- Value of `ENOSYS` in the Linux errno headers. -/
def ENOSYS : Int := 38

/-- Value of `EOPNOTSUPP` in the Linux errno headers. -/
def EOPNOTSUPP : Int := 95

/-- The two ceilings `XATTR_SIZE_MAX` and `XATTR_LIST_MAX`. Their declarations
(`linux/limits.h`) are not part of the sources, so they are parameters of the
embedding; Linux has 65536 for both. -/
structure Limits where
  XATTR_SIZE_MAX : Nat
  XATTR_LIST_MAX : Nat

/-- The limits of Linux. -/
def linux_limits : Limits := { XATTR_SIZE_MAX := 65536, XATTR_LIST_MAX := 65536 }

/-! ## Machine arithmetic -/

/-- Memory behind a byte pointer: the byte at each offset. -/
abbrev Mem := Nat → Nat

/-- Memory holding the given bytes, followed by NUL bytes. -/
def Mem.ofList (l : List Nat) : Mem := fun i => l.getD i 0

/-- The first `n` bytes behind a pointer. -/
def Mem.bytes (m : Mem) (n : Nat) : List Nat := (List.range n).map m

/-- Conversion of an integer value to the C type `int` (32 bits, two's
complement), as done by `return origsize;` in a function returning `int`. -/
def int_cast (x : Int) : Int := (x + 2147483648) % 4294967296 - 2147483648

/-- Number of values of `size_t` (64 bits). -/
def SIZE_MOD : Nat := 18446744073709551616

/-- Addition in `size_t`. -/
def size_t_add (a b : Nat) : Nat := (a + b) % SIZE_MOD

/-- Subtraction in `size_t`. -/
def size_t_sub (a b : Nat) : Nat := (a + SIZE_MOD - b % SIZE_MOD) % SIZE_MOD

/-- C library `strnlen(s, maxlen)`: the number of bytes before the first NUL
among the first `maxlen` bytes of `s`, and `maxlen` when there is none. -/
def strnlen (s : Mem) : Nat → Nat
  | 0 => 0
  | maxlen + 1 => if s 0 = 0 then 0 else strnlen (fun i => s (i + 1)) maxlen + 1

/-! ## The list validator -/

/-- The `while (size)` loop of `bento_verify_xattr_list`, with `list` and
`size` the loop variables and `origsize` the saved original size. -/
def verify_loop (origsize : Nat) (list : Mem) (size : Nat) : Int :=
  if size = 0 then
    int_cast origsize
  else
    let thislen := strnlen list size
    if thislen = 0 ∨ thislen = size then
      - EIO
    else
      verify_loop origsize (fun i => list (i + size_t_add thislen 1))
        (size_t_sub size (size_t_add thislen 1))
termination_by size
decreasing_by
  have hle : ∀ (n : Nat) (s : Mem), strnlen s n ≤ n := by
    intro n
    induction n with
    | zero => intro _; simp [strnlen]
    | succ k ih =>
      intro s
      simp only [strnlen]
      split
      · omega
      · have := ih (fun i => s (i + 1)); omega
  have h1 := hle size list
  simp only [size_t_sub, size_t_add, SIZE_MOD]
  omega

/-- Source function `bento_verify_xattr_list(list, size)`. -/
def bento_verify_xattr_list (list : Mem) (size : Nat) : Int :=
  verify_loop size list size

/-! ## Well-formed attribute lists, in the words of the specification -/

/-- An entry of an attribute list: a non-empty run of non-NUL bytes followed by
one NUL byte. -/
def IsEntry (e : List Nat) : Prop :=
  ∃ r : List Nat, r ≠ [] ∧ (∀ b ∈ r, b ≠ 0) ∧ e = r ++ [0]

/-- A well-formed attribute list: a concatenation of zero or more entries. -/
def WellFormedList (bs : List Nat) : Prop :=
  ∃ es : List (List Nat), (∀ e ∈ es, IsEntry e) ∧ bs = es.flatten

/-! ## Data model -/

/-- Request record of setxattr (`struct fuse_setxattr_in`: two `__u32`). -/
structure fuse_setxattr_in where
  size : Nat
  flags : Nat

/-- Request record of getxattr and listxattr (`struct fuse_getxattr_in`). -/
structure fuse_getxattr_in where
  size : Nat
  padding : Nat

/-- Size descriptor filled by the backend (`struct fuse_getxattr_out`). -/
structure fuse_getxattr_out where
  size : Nat
  padding : Nat

/-- Buffer descriptor handed to the backend (`struct bento_buffer`); `ptr` is
`none` for a NULL pointer. -/
structure bento_buffer where
  ptr : Option Mem
  bufsize : Nat
  drop : Bool

/-- What a backend getxattr / listxattr call leaves behind: its return value,
the descriptor `outarg`, and the contents of the memory behind `buf.ptr`. -/
structure xattr_reply where
  ret : Int
  outarg : fuse_getxattr_out
  data : Mem

/-- The backend operation table `fc->fs_ops`, over a backend state `β`. Each
entry takes the backend state (reached through `inode->i_sb`), the node id and
the arguments of the C call, and returns the C return value and the new
backend state. -/
structure bento_fs_ops (β : Type) where
  setxattr : β → Nat → fuse_setxattr_in → String → bento_buffer → Int × β
  getxattr : β → Nat → fuse_getxattr_in → String → Nat → bento_buffer → xattr_reply × β
  listxattr : β → Nat → fuse_getxattr_in → Nat → bento_buffer → xattr_reply × β
  removexattr : β → Nat → String → Int × β

/-- The fields of `struct bento_conn` used by `xattr.c`. -/
structure bento_conn (β : Type) where
  no_setxattr : Bool
  no_getxattr : Bool
  no_listxattr : Bool
  no_removexattr : Bool
  fs_ops : bento_fs_ops β

/-- Externally visible events. -/
inductive Event where
  | fs_setxattr
  | fs_getxattr
  | fs_listxattr
  | fs_removexattr
  | invalidate_attr (nodeid : Nat)
  | update_ctime (nodeid : Nat)
  deriving DecidableEq, Repr

/-- Everything a dispatcher can read or change: the connection, the backend
state and the trace of events so far (oldest first). -/
structure World (β : Type) where
  fc : bento_conn β
  fs : β
  trace : List Event

/-- Result of `bento_getxattr` / `bento_listxattr`: the return value, the
caller buffer afterwards, and the world afterwards. -/
structure xattr_result (β : Type) where
  ret : Int
  buf : Mem
  world : World β

/-- Host call `bento_invalidate_attr(inode)`, recorded in the trace. -/
def bento_invalidate_attr {β : Type} (w : World β) (inode : Nat) : World β :=
  { w with trace := w.trace ++ [Event.invalidate_attr inode] }

/-- Host call `bento_update_ctime(inode)`, recorded in the trace. -/
def bento_update_ctime {β : Type} (w : World β) (inode : Nat) : World β :=
  { w with trace := w.trace ++ [Event.update_ctime inode] }

/-! ## The backend calls

Each dispatcher builds its request record and buffer descriptor and invokes one
entry of `fc->fs_ops`; these four definitions are those call expressions. -/

/-- The call `fc->fs_ops->setxattr(inode->i_sb, get_node_id(inode), &inarg,
name, &buf)` of `bento_setxattr`, with `inarg` and `buf` as the source fills
them (`inarg.size` and `inarg.flags` are `__u32`). -/
def call_setxattr {β : Type} (w : World β) (inode : Nat) (name : String)
    (value : Option Mem) (size : Nat) (flags : Int) : Int × β :=
  let inarg : fuse_setxattr_in :=
    { size := size % 4294967296, flags := (flags % 4294967296).toNat }
  let buf : bento_buffer := { ptr := value, bufsize := size, drop := false }
  w.fc.fs_ops.setxattr w.fs inode inarg name buf

/-- The call `fc->fs_ops->getxattr(inode->i_sb, get_node_id(inode), &inarg,
name, size, &outarg, &buf)` of `bento_getxattr`. -/
def call_getxattr {β : Type} (w : World β) (inode : Nat) (name : String)
    (value : Mem) (size : Nat) : xattr_reply × β :=
  let inarg : fuse_getxattr_in := { size := size % 4294967296, padding := 0 }
  let buf : bento_buffer := { ptr := some value, bufsize := size, drop := false }
  w.fc.fs_ops.getxattr w.fs inode inarg name size buf

/-- The call `fc->fs_ops->listxattr(inode->i_sb, get_node_id(inode), &inarg,
size, &outarg, &buf)` of `bento_listxattr`. -/
def call_listxattr {β : Type} (w : World β) (inode : Nat) (list : Mem) (size : Nat) :
    xattr_reply × β :=
  let inarg : fuse_getxattr_in := { size := size % 4294967296, padding := 0 }
  let buf : bento_buffer := { ptr := some list, bufsize := size, drop := false }
  w.fc.fs_ops.listxattr w.fs inode inarg size buf

/-- The call `fc->fs_ops->removexattr(inode->i_sb, get_node_id(inode), name)`
of `bento_removexattr`. -/
def call_removexattr {β : Type} (w : World β) (inode : Nat) (name : String) : Int × β :=
  w.fc.fs_ops.removexattr w.fs inode name

/-! ## The dispatchers -/

/-- Source function `bento_setxattr(inode, name, value, size, flags)`; `inode`
is the node id. -/
def bento_setxattr {β : Type} (w : World β) (inode : Nat) (name : String)
    (value : Option Mem) (size : Nat) (flags : Int) : Int × World β :=
  if w.fc.no_setxattr then
    (-EOPNOTSUPP, w)
  else
    let r := call_setxattr w inode name value size flags
    let w1 : World β := { w with fs := r.2, trace := w.trace ++ [Event.fs_setxattr] }
    let err : Int := r.1
    let w2 : World β :=
      if err = -ENOSYS then { w1 with fc := { w1.fc with no_setxattr := true } } else w1
    let err : Int := if err = -ENOSYS then -EOPNOTSUPP else err
    let w3 : World β :=
      if err = 0 then bento_update_ctime (bento_invalidate_attr w2 inode) inode else w2
    (err, w3)

/-- Source function `bento_getxattr(inode, name, value, size)`. The request
descriptor `args` the source fills in is never read and is left out. -/
def bento_getxattr {β : Type} (lim : Limits) (w : World β) (inode : Nat) (name : String)
    (value : Mem) (size : Nat) : xattr_result β :=
  if w.fc.no_getxattr then
    { ret := -EOPNOTSUPP, buf := value, world := w }
  else
    let r := call_getxattr w inode name value size
    let w1 : World β := { w with fs := r.2, trace := w.trace ++ [Event.fs_getxattr] }
    let ret : Int := r.1.ret
    let ret : Int :=
      if ret = 0 ∧ size = 0 then min (r.1.outarg.size : Int) (lim.XATTR_SIZE_MAX : Int) else ret
    if ret = -ENOSYS then
      { ret := -EOPNOTSUPP, buf := r.1.data,
        world := { w1 with fc := { w1.fc with no_getxattr := true } } }
    else
      { ret := ret, buf := r.1.data, world := w1 }

/-- Source function `bento_listxattr(entry, list, size)`; `inode` is the node
id of `d_inode(entry)` and `allowed` is the outcome of
`bento_allow_current_process(fc)`, whose code is not part of the sources. -/
def bento_listxattr {β : Type} (lim : Limits) (w : World β) (allowed : Bool) (inode : Nat)
    (list : Mem) (size : Nat) : xattr_result β :=
  if !allowed then
    { ret := -EACCES, buf := list, world := w }
  else if w.fc.no_listxattr then
    { ret := -EOPNOTSUPP, buf := list, world := w }
  else
    let r := call_listxattr w inode list size
    let w1 : World β := { w with fs := r.2, trace := w.trace ++ [Event.fs_listxattr] }
    let ret : Int := r.1.ret
    let ret : Int :=
      if ret = 0 ∧ size = 0 then min (r.1.outarg.size : Int) (lim.XATTR_LIST_MAX : Int) else ret
    let ret : Int :=
      if 0 < ret ∧ size ≠ 0 then bento_verify_xattr_list r.1.data ret.toNat else ret
    if ret = -ENOSYS then
      { ret := -EOPNOTSUPP, buf := r.1.data,
        world := { w1 with fc := { w1.fc with no_listxattr := true } } }
    else
      { ret := ret, buf := r.1.data, world := w1 }

/-- Source function `bento_removexattr(inode, name)`. -/
def bento_removexattr {β : Type} (w : World β) (inode : Nat) (name : String) :
    Int × World β :=
  if w.fc.no_removexattr then
    (-EOPNOTSUPP, w)
  else
    let r := call_removexattr w inode name
    let w1 : World β := { w with fs := r.2, trace := w.trace ++ [Event.fs_removexattr] }
    let err : Int := r.1
    let w2 : World β :=
      if err = -ENOSYS then { w1 with fc := { w1.fc with no_removexattr := true } } else w1
    let err : Int := if err = -ENOSYS then -EOPNOTSUPP else err
    let w3 : World β :=
      if err = 0 then bento_update_ctime (bento_invalidate_attr w2 inode) inode else w2
    (err, w3)

/-- Source function `bento_xattr_get`: the handler and dentry arguments are
unused; the `ssize_t` result is returned as an `int`. -/
def bento_xattr_get {β : Type} (lim : Limits) (w : World β) (inode : Nat) (name : String)
    (value : Mem) (size : Nat) : xattr_result β :=
  let r := bento_getxattr lim w inode name value size
  { r with ret := int_cast r.ret }

/-- Source function `bento_xattr_set`: a NULL `value` is a removal. -/
def bento_xattr_set {β : Type} (w : World β) (inode : Nat) (name : String)
    (value : Option Mem) (size : Nat) (flags : Int) : Int × World β :=
  match value with
  | none => bento_removexattr w inode name
  | some v => bento_setxattr w inode name (some v) size flags

/-! ## Sequences of calls -/

/-- The four operation kinds. -/
inductive Op where
  | set
  | get
  | list
  | remove
  deriving DecidableEq, Repr

/-- The unsupported flag of an operation kind. -/
def Op.flag {β : Type} (fc : bento_conn β) : Op → Bool
  | Op.set => fc.no_setxattr
  | Op.get => fc.no_getxattr
  | Op.list => fc.no_listxattr
  | Op.remove => fc.no_removexattr

/-- The trace event of a backend call of an operation kind. -/
def Op.event : Op → Event
  | Op.set => Event.fs_setxattr
  | Op.get => Event.fs_getxattr
  | Op.list => Event.fs_listxattr
  | Op.remove => Event.fs_removexattr

/-- Number of backend invocations of an operation kind so far. -/
def calls {β : Type} (op : Op) (w : World β) : Nat := w.trace.count op.event

/-- One call of a public operation, with its arguments. For `listxattr`,
`allowed` is the outcome of the calling-process check at that call. -/
inductive Request where
  | setxattr (inode : Nat) (name : String) (value : Option Mem) (size : Nat) (flags : Int)
  | getxattr (inode : Nat) (name : String) (value : Mem) (size : Nat)
  | listxattr (allowed : Bool) (inode : Nat) (list : Mem) (size : Nat)
  | removexattr (inode : Nat) (name : String)
  | xattr_get (inode : Nat) (name : String) (value : Mem) (size : Nat)
  | xattr_set (inode : Nat) (name : String) (value : Option Mem) (size : Nat) (flags : Int)

/-- The operation kind a request reaches the backend with. -/
def Request.op : Request → Op
  | Request.setxattr _ _ _ _ _ => Op.set
  | Request.getxattr _ _ _ _ => Op.get
  | Request.listxattr _ _ _ _ => Op.list
  | Request.removexattr _ _ => Op.remove
  | Request.xattr_get _ _ _ _ => Op.get
  | Request.xattr_set _ _ none _ _ => Op.remove
  | Request.xattr_set _ _ (some _) _ _ => Op.set

/-- Whether the calling-process check of a request passes (only `listxattr`
has one). -/
def Request.allowed : Request → Bool
  | Request.listxattr allowed _ _ _ => allowed
  | _ => true

/-- Perform one request: the value returned to the caller and the world
afterwards. -/
def step {β : Type} (lim : Limits) (w : World β) : Request → Int × World β
  | Request.setxattr inode name value size flags => bento_setxattr w inode name value size flags
  | Request.getxattr inode name value size =>
    let r := bento_getxattr lim w inode name value size
    (r.ret, r.world)
  | Request.listxattr allowed inode list size =>
    let r := bento_listxattr lim w allowed inode list size
    (r.ret, r.world)
  | Request.removexattr inode name => bento_removexattr w inode name
  | Request.xattr_get inode name value size =>
    let r := bento_xattr_get lim w inode name value size
    (r.ret, r.world)
  | Request.xattr_set inode name value size flags => bento_xattr_set w inode name value size flags

/-- Perform a sequence of requests on one connection, first to last. -/
def run {β : Type} (lim : Limits) (w : World β) : List Request → World β
  | [] => w
  | r :: rs => run lim (step lim w r).2 rs

/-! ## Backends and worlds used as concrete inputs -/

/-- A stateless backend answering every call with return value `e`, reported
size `sz` and buffer contents `data`. -/
def const_ops (e : Int) (sz : Nat) (data : Mem) : bento_fs_ops Unit :=
  { setxattr := fun s _ _ _ _ => (e, s)
    getxattr := fun s _ _ _ _ _ =>
      ({ ret := e, outarg := { size := sz, padding := 0 }, data := data }, s)
    listxattr := fun s _ _ _ _ =>
      ({ ret := e, outarg := { size := sz, padding := 0 }, data := data }, s)
    removexattr := fun s _ _ => (e, s) }

/-- A freshly mounted connection: all flags false, empty trace. -/
def mount {β : Type} (ops : bento_fs_ops β) (fs : β) : World β :=
  { fc := { no_setxattr := false, no_getxattr := false, no_listxattr := false,
            no_removexattr := false, fs_ops := ops }
    fs := fs
    trace := [] }

/-- A connection on which all four operations are already known unsupported. -/
def all_unsupported {β : Type} (ops : bento_fs_ops β) (fs : β) : World β :=
  { fc := { no_setxattr := true, no_getxattr := true, no_listxattr := true,
            no_removexattr := true, fs_ops := ops }
    fs := fs
    trace := [] }

/-- Memory holding no bytes of interest (all NUL). -/
def zero_mem : Mem := fun _ => 0

/-- Memory holding the one-letter entry `"a\0"` over and over. -/
def alt_mem : Mem := fun i => if i % 2 = 0 then 97 else 0

/-! ## Signal counters -/

/-- Whether an event is an attribute invalidation (`bento_invalidate_attr`). -/
def Event.is_invalidate : Event → Bool
  | Event.invalidate_attr _ => true
  | _ => false

/-- Whether an event is a change-time update (`bento_update_ctime`). -/
def Event.is_ctime : Event → Bool
  | Event.update_ctime _ => true
  | _ => false

/-- Counter of the `bento_invalidate_attr` signals fired so far. -/
def invalidations {β : Type} (w : World β) : Nat := w.trace.countP Event.is_invalidate

/-- Counter of the `bento_update_ctime` signals fired so far. -/
def ctime_updates {β : Type} (w : World β) : Nat := w.trace.countP Event.is_ctime

/-! ## A reference backend: key-value store per node -/

/-- Value of `ENODATA` in the Linux errno headers (attribute not found). -/
def ENODATA : Int := 61

/-- Value of `ERANGE` in the Linux errno headers (buffer too small). -/
def ERANGE : Int := 34

/-- State of the reference backend: the attributes it holds, as pairs of
(node id, name) and value bytes. -/
abbrev kv_store := List ((Nat × String) × List Nat)

/-- The value stored under a name of a node, if any. -/
def kv_get (s : kv_store) (nodeid : Nat) (name : String) : Option (List Nat) :=
  s.lookup (nodeid, name)

/-- The store without a name of a node. -/
def kv_del (s : kv_store) (nodeid : Nat) (name : String) : kv_store :=
  s.filter (fun e => !(e.1 == (nodeid, name)))

/-- The store with a value put under a name of a node. -/
def kv_put (s : kv_store) (nodeid : Nat) (name : String) (v : List Nat) : kv_store :=
  ((nodeid, name), v) :: kv_del s nodeid name

/-- The attribute names of a node as a list buffer: each name followed by NUL. -/
def kv_names (s : kv_store) (nodeid : Nat) : List Nat :=
  ((s.filter (fun e => e.1.1 == nodeid)).map
    (fun e => e.1.2.toList.map Char.toNat ++ [0])).flatten

/-- A buffer after `bytes` have been copied to its start. -/
def Mem.write (m : Mem) (bytes : List Nat) : Mem :=
  fun i => if i < bytes.length then bytes.getD i 0 else m i

/-- What the reference backend answers to a get or list whose full result is
`bytes`: in size-query mode 0 with the length reported in `outarg.size`; in
fill mode the bytes copied into the buffer and their number returned, or
-ERANGE when the buffer is too small. -/
def kv_reply (bytes : List Nat) (size : Nat) (buf : bento_buffer) : xattr_reply :=
  if size = 0 then
    { ret := 0, outarg := { size := bytes.length, padding := 0 },
      data := buf.ptr.getD zero_mem }
  else if size < bytes.length then
    { ret := -ERANGE, outarg := { size := 0, padding := 0 }, data := buf.ptr.getD zero_mem }
  else
    { ret := bytes.length, outarg := { size := 0, padding := 0 },
      data := (buf.ptr.getD zero_mem).write bytes }

/-- The reference backend of the round-trip property: a key-value store per
node. setxattr stores the value bytes under the name and returns 0; getxattr
answers with the stored value, or -ENODATA when the name is absent;
removexattr deletes the name and returns 0; listxattr answers with the names
of the node. -/
def kv_ops : bento_fs_ops kv_store :=
  { setxattr := fun s nodeid _ name buf =>
      (0, kv_put s nodeid name
        (match buf.ptr with
         | some m => Mem.bytes m buf.bufsize
         | none => []))
    getxattr := fun s nodeid _ name size buf =>
      match kv_get s nodeid name with
      | none =>
        ({ ret := -ENODATA, outarg := { size := 0, padding := 0 },
           data := buf.ptr.getD zero_mem }, s)
      | some v => (kv_reply v size buf, s)
    listxattr := fun s nodeid _ size buf => (kv_reply (kv_names s nodeid) size buf, s)
    removexattr := fun s nodeid name => (0, kv_del s nodeid name) }

/-! ## Byte-level description of accepted lists -/

/-- Byte-level description of an accepted list of `n > 0` bytes: the first
byte is not NUL, the last byte is NUL, and no two adjacent bytes are both
NUL. -/
def ByteLevelOk (list : Mem) (n : Nat) : Prop :=
  list 0 ≠ 0 ∧ list (n - 1) = 0 ∧ ∀ i, i + 1 < n → ¬ (list i = 0 ∧ list (i + 1) = 0)

/-! ## The validator loop, iteration by iteration -/

/-- The loop variables of `bento_verify_xattr_list`: `pos` is how far the
pointer `list` has advanced from its initial value, `size` is the remaining
size. -/
structure verify_vars where
  pos : Nat
  size : Nat
  deriving DecidableEq, Repr

/-- The run length `thislen = strnlen(list, size)` computed by the loop body
in the given loop state. -/
def verify_thislen (list : Mem) (v : verify_vars) : Nat :=
  strnlen (fun i => list (i + v.pos)) v.size

/-- One execution of the loop body of `bento_verify_xattr_list`: `none` when it
returns -EIO, otherwise the loop variables after `size -= thislen + 1;
list += thislen + 1`. -/
def verify_body (list : Mem) (v : verify_vars) : Option verify_vars :=
  let thislen := verify_thislen list v
  if thislen = 0 ∨ thislen = v.size then
    none
  else
    some { pos := v.pos + size_t_add thislen 1,
           size := size_t_sub v.size (size_t_add thislen 1) }

/-- The loop of `bento_verify_xattr_list` run for at most `fuel` executions of
its body: the value the function returns, or `none` when the loop is still
running after `fuel` iterations. -/
def verify_iter (origsize : Nat) (list : Mem) : Nat → verify_vars → Option Int
  | 0, v => if v.size = 0 then some (int_cast origsize) else none
  | fuel + 1, v =>
    if v.size = 0 then
      some (int_cast origsize)
    else
      match verify_body list v with
      | none => some (- EIO)
      | some v' => verify_iter origsize list fuel v'

/-- The loop variables after `k` executions of the loop body that did not
return, starting from `list` and `n`; `none` when the loop has ended before. -/
def verify_vars_after (list : Mem) (n : Nat) : Nat → Option verify_vars
  | 0 => some { pos := 0, size := n }
  | k + 1 =>
    match verify_vars_after list n k with
    | none => none
    | some v => if v.size = 0 then none else verify_body list v

/-! ## Lemmas on the list validator -/

theorem strnlen_le (n : Nat) (s : Mem) : strnlen s n ≤ n := by
  induction n generalizing s with
  | zero => simp [strnlen]
  | succ k ih =>
    simp only [strnlen]
    split
    · omega
    · have := ih (fun i => s (i + 1)); omega

theorem strnlen_nonzero (n : Nat) (s : Mem) : ∀ i, i < strnlen s n → s i ≠ 0 := by
  induction n generalizing s with
  | zero => simp [strnlen]
  | succ k ih =>
    intro i hi
    simp only [strnlen] at hi
    split at hi
    · omega
    · rename_i h0
      cases i with
      | zero => exact h0
      | succ j => exact ih (fun i => s (i + 1)) j (by omega)

theorem strnlen_nul (n : Nat) (s : Mem) (h : strnlen s n < n) : s (strnlen s n) = 0 := by
  induction n generalizing s with
  | zero => omega
  | succ k ih =>
    simp only [strnlen] at h ⊢
    split
    · assumption
    · rename_i h0
      simp only [h0, if_false] at h
      exact ih (fun i => s (i + 1)) (by omega)

theorem bytes_succ (m : Mem) (n : Nat) : Mem.bytes m (n + 1) = m 0 :: Mem.bytes (fun i => m (i + 1)) n := by
  simp [Mem.bytes, List.range_succ_eq_map, List.map_map, Function.comp_def]

theorem bytes_add (m : Mem) (a b : Nat) :
    Mem.bytes m (a + b) = Mem.bytes m a ++ Mem.bytes (fun i => m (i + a)) b := by
  induction a generalizing m with
  | zero => simp [Mem.bytes]
  | succ k ih =>
    have : k + 1 + b = (k + b) + 1 := by omega
    rw [this, bytes_succ, bytes_succ, ih]
    simp [Nat.add_assoc, Nat.add_comm 1]

theorem mem_bytes {m : Mem} {n b : Nat} (h : b ∈ Mem.bytes m n) : ∃ i, i < n ∧ m i = b := by
  simpa [Mem.bytes] using h

theorem nul_free_prefix_unique (a b x y : List Nat) (ha : ∀ c ∈ a, c ≠ 0) (hb : ∀ c ∈ b, c ≠ 0)
    (h : a ++ 0 :: x = b ++ 0 :: y) : a = b ∧ x = y := by
  induction a generalizing b with
  | nil =>
    cases b with
    | nil => simpa using h
    | cons c cs =>
      simp at h
      exact absurd h.1.symm (hb c (by simp))
  | cons c cs ih =>
    cases b with
    | nil =>
      simp at h
      exact absurd h.1 (ha c (by simp))
    | cons d ds =>
      simp at h
      obtain ⟨h1, h2⟩ := h
      have := ih ds (fun c hc => ha c (by simp [hc])) (fun c hc => hb c (by simp [hc])) h2
      simp [h1, this.1, this.2]

theorem wellFormed_nil : WellFormedList [] := ⟨[], by simp, by simp⟩

theorem wellFormed_entry_append (r rest : List Nat) (hr : r ≠ []) (h0 : ∀ b ∈ r, b ≠ 0) :
    WellFormedList (r ++ 0 :: rest) ↔ WellFormedList rest := by
  constructor
  · rintro ⟨es, hes, hflat⟩
    cases es with
    | nil => simp at hflat
    | cons e es' =>
      obtain ⟨r', hr', h0', rfl⟩ := hes e (by simp)
      simp only [List.flatten_cons, List.append_assoc, List.singleton_append] at hflat
      have := nul_free_prefix_unique r r' rest es'.flatten h0 h0' hflat
      exact ⟨es', fun e he => hes e (by simp [he]), this.2⟩
  · rintro ⟨es, hes, hflat⟩
    refine ⟨(r ++ [0]) :: es, ?_, ?_⟩
    · intro e he
      simp at he
      rcases he with rfl | he
      · exact ⟨r, hr, h0, rfl⟩
      · exact hes e he
    · simp [hflat]

theorem wellFormed_head_ne_zero (b : Nat) (bs : List Nat) (h : WellFormedList (b :: bs)) : b ≠ 0 := by
  obtain ⟨es, hes, hflat⟩ := h
  cases es with
  | nil => simp at hflat
  | cons e es' =>
    obtain ⟨r, hr, h0, rfl⟩ := hes e (by simp)
    cases r with
    | nil => exact absurd rfl hr
    | cons c cs =>
      simp at hflat
      rw [hflat.1]
      exact h0 c (by simp)

theorem wellFormed_has_nul (bs : List Nat) (hne : bs ≠ []) (h : WellFormedList bs) : 0 ∈ bs := by
  obtain ⟨es, hes, hflat⟩ := h
  cases es with
  | nil => simp at hflat; exact absurd hflat hne
  | cons e es' =>
    obtain ⟨r, hr, h0, rfl⟩ := hes e (by simp)
    rw [hflat]
    simp

theorem verify_loop_spec (origsize : Nat) (size : Nat) :
    ∀ list : Mem, size < SIZE_MOD →
      (WellFormedList (Mem.bytes list size) → verify_loop origsize list size = int_cast origsize) ∧
      (¬ WellFormedList (Mem.bytes list size) → verify_loop origsize list size = - EIO) := by
  induction size using Nat.strong_induction_on with
  | _ size ih =>
    intro list hsz
    rw [verify_loop]
    by_cases h0 : size = 0
    · subst h0
      simp [Mem.bytes, wellFormed_nil]
    · simp only [h0, if_false]
      have hle := strnlen_le size list
      by_cases hk0 : strnlen list size = 0
      · simp only [hk0, true_or, if_true]
        refine ⟨fun hwf => ?_, fun _ => trivial⟩
        exfalso
        obtain ⟨m, rfl⟩ : ∃ m, size = m + 1 := ⟨size - 1, by omega⟩
        rw [bytes_succ] at hwf
        have hz : list 0 = 0 := by
          have := strnlen_nul (m + 1) list (by omega)
          rwa [hk0] at this
        exact wellFormed_head_ne_zero _ _ hwf hz
      · by_cases hks : strnlen list size = size
        · simp only [hks, or_true, if_true]
          refine ⟨fun hwf => ?_, fun _ => trivial⟩
          exfalso
          have hmem := wellFormed_has_nul _ (by
            obtain ⟨m, rfl⟩ : ∃ m, size = m + 1 := ⟨size - 1, by omega⟩
            rw [bytes_succ]; simp) hwf
          obtain ⟨i, hi, hz⟩ := mem_bytes hmem
          exact strnlen_nonzero size list i (by omega) hz
        · simp only [hk0, hks, or_self, if_false]
          have hlt : strnlen list size < size := by omega
          have hadd : size_t_add (strnlen list size) 1 = strnlen list size + 1 := by
            simp only [size_t_add, SIZE_MOD] at *; omega
          have hsub : size_t_sub size (strnlen list size + 1) = size - (strnlen list size + 1) := by
            simp only [size_t_sub, SIZE_MOD] at *; omega
          rw [hadd, hsub]
          have hsplit : Mem.bytes list size =
              Mem.bytes list (strnlen list size) ++
                0 :: Mem.bytes (fun i => list (i + (strnlen list size + 1)))
                  (size - (strnlen list size + 1)) := by
            have e1 : size = strnlen list size + (1 + (size - (strnlen list size + 1))) := by omega
            conv_lhs => rw [e1]
            rw [bytes_add, Nat.add_comm 1, bytes_succ]
            simp [strnlen_nul size list hlt, Nat.add_assoc, Nat.add_comm 1]
          have hrun : ∀ b ∈ Mem.bytes list (strnlen list size), b ≠ 0 := by
            intro b hb
            obtain ⟨i, hi, rfl⟩ := mem_bytes hb
            exact strnlen_nonzero size list i hi
          have hne : Mem.bytes list (strnlen list size) ≠ [] := by
            obtain ⟨m, hm⟩ : ∃ m, strnlen list size = m + 1 := ⟨strnlen list size - 1, by omega⟩
            rw [hm, bytes_succ]; simp
          rw [hsplit, wellFormed_entry_append _ _ hne hrun]
          exact ih (size - (strnlen list size + 1)) (by omega) _ (by omega)

theorem int_cast_of_int_range (x : Int) (h0 : 0 ≤ x) (h1 : x ≤ 2147483647) : int_cast x = x := by
  simp only [int_cast]; omega

theorem verify_cases (list : Mem) (n : Nat) (h : n < SIZE_MOD) :
    bento_verify_xattr_list list n = int_cast n ∨ bento_verify_xattr_list list n = - EIO := by
  have := verify_loop_spec n n list h
  by_cases hw : WellFormedList (Mem.bytes list n)
  · exact Or.inl (this.1 hw)
  · exact Or.inr (this.2 hw)

theorem alt_mem_shift : (fun i => alt_mem (i + 1 + 1)) = alt_mem := by
  funext i
  simp only [alt_mem]
  have : (i + 1 + 1) % 2 = i % 2 := by omega
  rw [this]

theorem alt_mem_well_formed (k : Nat) : WellFormedList (Mem.bytes alt_mem (2 * k)) := by
  induction k with
  | zero => simpa [Mem.bytes] using wellFormed_nil
  | succ k ih =>
    have e : 2 * (k + 1) = 2 * k + 1 + 1 := by omega
    rw [e, bytes_succ, bytes_succ]
    simp only [alt_mem_shift]
    have h : alt_mem 0 :: (fun i => alt_mem (i + 1)) 0 :: Mem.bytes alt_mem (2 * k)
        = [97] ++ 0 :: Mem.bytes alt_mem (2 * k) := by
      simp [alt_mem]
    rw [h, wellFormed_entry_append [97] _ (by simp) (by simp)]
    exact ih

theorem verify_small (list : Mem) (n : Nat) (hn : n ≤ 2147483647) :
    (WellFormedList (Mem.bytes list n) → bento_verify_xattr_list list n = (n : Int)) ∧
    (¬ WellFormedList (Mem.bytes list n) → bento_verify_xattr_list list n = - EIO) := by
  have hspec := verify_loop_spec n n list (by simp only [SIZE_MOD]; omega)
  have hi := int_cast_of_int_range (n : Int) (by omega) (by omega)
  refine ⟨fun h => ?_, hspec.2⟩
  simp only [bento_verify_xattr_list]
  rw [hspec.1 h, hi]

/-! ## Frame lemmas on the dispatchers -/

theorem int_cast_eopnotsupp : int_cast (-EOPNOTSUPP) = -EOPNOTSUPP := by decide

theorem setxattr_flags {β : Type} (w : World β) (inode : Nat) (name : String)
    (value : Option Mem) (size : Nat) (flags : Int) :
    (w.fc.no_setxattr = true → (bento_setxattr w inode name value size flags).2.fc.no_setxattr = true) ∧
    (bento_setxattr w inode name value size flags).2.fc.no_getxattr = w.fc.no_getxattr ∧
    (bento_setxattr w inode name value size flags).2.fc.no_listxattr = w.fc.no_listxattr ∧
    (bento_setxattr w inode name value size flags).2.fc.no_removexattr = w.fc.no_removexattr := by
  simp only [bento_setxattr, bento_update_ctime, bento_invalidate_attr]
  split_ifs <;> simp_all

theorem removexattr_flags {β : Type} (w : World β) (inode : Nat) (name : String) :
    (w.fc.no_removexattr = true → (bento_removexattr w inode name).2.fc.no_removexattr = true) ∧
    (bento_removexattr w inode name).2.fc.no_setxattr = w.fc.no_setxattr ∧
    (bento_removexattr w inode name).2.fc.no_getxattr = w.fc.no_getxattr ∧
    (bento_removexattr w inode name).2.fc.no_listxattr = w.fc.no_listxattr := by
  simp only [bento_removexattr, bento_update_ctime, bento_invalidate_attr]
  split_ifs <;> simp_all

theorem getxattr_flags {β : Type} (lim : Limits) (w : World β) (inode : Nat) (name : String)
    (value : Mem) (size : Nat) :
    (w.fc.no_getxattr = true → (bento_getxattr lim w inode name value size).world.fc.no_getxattr = true) ∧
    (bento_getxattr lim w inode name value size).world.fc.no_setxattr = w.fc.no_setxattr ∧
    (bento_getxattr lim w inode name value size).world.fc.no_listxattr = w.fc.no_listxattr ∧
    (bento_getxattr lim w inode name value size).world.fc.no_removexattr = w.fc.no_removexattr := by
  simp only [bento_getxattr]
  split_ifs <;> simp_all

theorem listxattr_flags {β : Type} (lim : Limits) (w : World β) (allowed : Bool) (inode : Nat)
    (list : Mem) (size : Nat) :
    (w.fc.no_listxattr = true →
      (bento_listxattr lim w allowed inode list size).world.fc.no_listxattr = true) ∧
    (bento_listxattr lim w allowed inode list size).world.fc.no_setxattr = w.fc.no_setxattr ∧
    (bento_listxattr lim w allowed inode list size).world.fc.no_getxattr = w.fc.no_getxattr ∧
    (bento_listxattr lim w allowed inode list size).world.fc.no_removexattr = w.fc.no_removexattr := by
  simp only [bento_listxattr]
  split_ifs <;> simp_all

theorem step_flag_mono {β : Type} (lim : Limits) (w : World β) (r : Request) (op : Op)
    (h : op.flag w.fc = true) : op.flag (step lim w r).2.fc = true := by
  cases r with
  | setxattr inode name value size flags =>
    have := setxattr_flags w inode name value size flags
    cases op <;> simp_all [step, Op.flag]
  | getxattr inode name value size =>
    have := getxattr_flags lim w inode name value size
    cases op <;> simp_all [step, Op.flag]
  | listxattr allowed inode list size =>
    have := listxattr_flags lim w allowed inode list size
    cases op <;> simp_all [step, Op.flag]
  | removexattr inode name =>
    have := removexattr_flags w inode name
    cases op <;> simp_all [step, Op.flag]
  | xattr_get inode name value size =>
    have := getxattr_flags lim w inode name value size
    cases op <;> simp_all [step, Op.flag, bento_xattr_get]
  | xattr_set inode name value size flags =>
    cases value with
    | none =>
      have := removexattr_flags w inode name
      cases op <;> simp_all [step, Op.flag, bento_xattr_set]
    | some v =>
      have := setxattr_flags w inode name (some v) size flags
      cases op <;> simp_all [step, Op.flag, bento_xattr_set]

theorem run_flag_mono {β : Type} (lim : Limits) (reqs : List Request) (w : World β) (op : Op)
    (h : op.flag w.fc = true) : op.flag (run lim w reqs).fc = true := by
  induction reqs generalizing w with
  | nil => simpa [run] using h
  | cons r rs ih => exact ih _ (step_flag_mono lim w r op h)

theorem setxattr_calls {β : Type} (w : World β) (inode : Nat) (name : String)
    (value : Option Mem) (size : Nat) (flags : Int) (op : Op)
    (h : op ≠ Op.set ∨ w.fc.no_setxattr = true) :
    calls op (bento_setxattr w inode name value size flags).2 = calls op w := by
  simp only [bento_setxattr, bento_update_ctime, bento_invalidate_attr, calls]
  split_ifs <;> cases op <;> simp_all [Op.event, List.count_append]

theorem removexattr_calls {β : Type} (w : World β) (inode : Nat) (name : String) (op : Op)
    (h : op ≠ Op.remove ∨ w.fc.no_removexattr = true) :
    calls op (bento_removexattr w inode name).2 = calls op w := by
  simp only [bento_removexattr, bento_update_ctime, bento_invalidate_attr, calls]
  split_ifs <;> cases op <;> simp_all [Op.event, List.count_append]

theorem getxattr_calls {β : Type} (lim : Limits) (w : World β) (inode : Nat) (name : String)
    (value : Mem) (size : Nat) (op : Op) (h : op ≠ Op.get ∨ w.fc.no_getxattr = true) :
    calls op (bento_getxattr lim w inode name value size).world = calls op w := by
  simp only [bento_getxattr, calls]
  split_ifs <;> cases op <;> simp_all [Op.event, List.count_append]

theorem listxattr_calls {β : Type} (lim : Limits) (w : World β) (allowed : Bool) (inode : Nat)
    (list : Mem) (size : Nat) (op : Op) (h : op ≠ Op.list ∨ w.fc.no_listxattr = true) :
    calls op (bento_listxattr lim w allowed inode list size).world = calls op w := by
  simp only [bento_listxattr, calls]
  split_ifs <;> cases op <;> simp_all [Op.event, List.count_append]

theorem step_calls_flagged {β : Type} (lim : Limits) (w : World β) (r : Request) (op : Op)
    (h : op.flag w.fc = true) : calls op (step lim w r).2 = calls op w := by
  cases r with
  | setxattr inode name value size flags =>
    exact setxattr_calls w inode name value size flags op (by cases op <;> simp_all [Op.flag])
  | getxattr inode name value size =>
    exact getxattr_calls lim w inode name value size op (by cases op <;> simp_all [Op.flag])
  | listxattr allowed inode list size =>
    exact listxattr_calls lim w allowed inode list size op (by cases op <;> simp_all [Op.flag])
  | removexattr inode name =>
    exact removexattr_calls w inode name op (by cases op <;> simp_all [Op.flag])
  | xattr_get inode name value size =>
    exact getxattr_calls lim w inode name value size op (by cases op <;> simp_all [Op.flag])
  | xattr_set inode name value size flags =>
    cases value with
    | none => exact removexattr_calls w inode name op (by cases op <;> simp_all [Op.flag])
    | some v =>
      exact setxattr_calls w inode name (some v) size flags op (by cases op <;> simp_all [Op.flag])

theorem step_unsupported {β : Type} (lim : Limits) (w : World β) (r : Request)
    (hflag : r.op.flag w.fc = true) (hallow : r.allowed = true) :
    step lim w r = (-EOPNOTSUPP, w) := by
  cases r with
  | setxattr inode name value size flags =>
    simp_all [step, Request.op, Op.flag, bento_setxattr]
  | getxattr inode name value size =>
    simp_all [step, Request.op, Op.flag, bento_getxattr]
  | listxattr allowed inode list size =>
    simp_all [step, Request.op, Op.flag, Request.allowed, bento_listxattr]
  | removexattr inode name =>
    simp_all [step, Request.op, Op.flag, bento_removexattr]
  | xattr_get inode name value size =>
    simp_all [step, Request.op, Op.flag, bento_getxattr, bento_xattr_get, int_cast_eopnotsupp]
  | xattr_set inode name value size flags =>
    cases value with
    | none => simp_all [step, Request.op, Op.flag, bento_removexattr, bento_xattr_set]
    | some v => simp_all [step, Request.op, Op.flag, bento_setxattr, bento_xattr_set]

theorem run_calls_flagged {β : Type} (lim : Limits) (reqs : List Request) (w : World β) (op : Op)
    (h : op.flag w.fc = true) : calls op (run lim w reqs) = calls op w := by
  induction reqs generalizing w with
  | nil => rfl
  | cons r rs ih =>
    simp only [run]
    rw [ih _ (step_flag_mono lim w r op h), step_calls_flagged lim w r op h]

/-! ## Further lemmas on the validator and on sequences of calls -/

theorem int_cast_le_of_nonneg (x : Int) (h0 : 0 ≤ x) : int_cast x ≤ x := by
  simp only [int_cast]; omega

theorem verify_loop_range (origsize : Nat) (list : Mem) (size : Nat) :
    verify_loop origsize list size = int_cast origsize ∨
    verify_loop origsize list size = - EIO := by
  refine verify_loop.induct origsize
    (fun list size => verify_loop origsize list size = int_cast origsize ∨
      verify_loop origsize list size = - EIO) ?_ ?_ ?_ list size
  · intro list
    left; rw [verify_loop]; simp
  · intro list size h0 thislen hl
    right; rw [verify_loop]
    simp only [h0, if_false]
    exact if_pos hl
  · intro list size h0 thislen hl ih
    rw [verify_loop]
    simp only [h0, if_false]
    rw [if_neg hl]
    exact ih

theorem step_other_flags {β : Type} (lim : Limits) (w : World β) (r : Request) (op : Op)
    (hr : r.op ≠ op) : op.flag (step lim w r).2.fc = op.flag w.fc := by
  cases r with
  | setxattr inode name value size flags =>
    have := setxattr_flags w inode name value size flags
    cases op <;> simp_all [step, Op.flag, Request.op]
  | getxattr inode name value size =>
    have := getxattr_flags lim w inode name value size
    cases op <;> simp_all [step, Op.flag, Request.op]
  | listxattr allowed inode list size =>
    have := listxattr_flags lim w allowed inode list size
    cases op <;> simp_all [step, Op.flag, Request.op]
  | removexattr inode name =>
    have := removexattr_flags w inode name
    cases op <;> simp_all [step, Op.flag, Request.op]
  | xattr_get inode name value size =>
    have := getxattr_flags lim w inode name value size
    cases op <;> simp_all [step, Op.flag, Request.op, bento_xattr_get]
  | xattr_set inode name value size flags =>
    cases value with
    | none =>
      have e : step lim w (Request.xattr_set inode name none size flags)
          = bento_removexattr w inode name := rfl
      rw [e]
      have := removexattr_flags w inode name
      cases op <;> simp_all [Op.flag, Request.op]
    | some v =>
      have e : step lim w (Request.xattr_set inode name (some v) size flags)
          = bento_setxattr w inode name (some v) size flags := rfl
      rw [e]
      have := setxattr_flags w inode name (some v) size flags
      cases op <;> simp_all [Op.flag, Request.op]

theorem run_other_flags {β : Type} (lim : Limits) (reqs : List Request) (w : World β) (op : Op)
    (h : ∀ r ∈ reqs, r.op ≠ op) : op.flag (run lim w reqs).fc = op.flag w.fc := by
  induction reqs generalizing w with
  | nil => rfl
  | cons r rs ih =>
    simp only [run]
    rw [ih _ (fun r' hr' => h r' (by simp [hr']))]
    exact step_other_flags lim w r op (h r (by simp))

theorem verify_eio_or_cast (list : Mem) (n : Int) (hn : 0 < n) :
    bento_verify_xattr_list list n.toNat = - EIO ∨
    bento_verify_xattr_list list n.toNat = int_cast n := by
  rcases verify_loop_range n.toNat list n.toNat with h | h
  · right
    have e : ((n.toNat : Nat) : Int) = n := by omega
    simp only [bento_verify_xattr_list]
    rw [h, e]
  · left; exact h

/-! ## Lemmas on the reference backend -/

theorem kv_get_put (s : kv_store) (nodeid : Nat) (name : String) (v : List Nat) :
    kv_get (kv_put s nodeid name v) nodeid name = some v := by
  simp [kv_get, kv_put, List.lookup]

theorem kv_get_del (s : kv_store) (nodeid : Nat) (name : String) :
    kv_get (kv_del s nodeid name) nodeid name = none := by
  induction s with
  | nil => simp [kv_get, kv_del]
  | cons e es ih =>
    obtain ⟨k, v⟩ := e
    simp only [kv_get, kv_del] at ih ⊢
    rw [List.filter_cons]
    by_cases h : k = (nodeid, name)
    · subst h
      simpa using ih
    · have h1 : (k == (nodeid, name)) = false := by simpa using h
      have h2 : ((nodeid, name) == k) = false := by
        rw [beq_eq_false_iff_ne]
        exact fun hh => h hh.symm
      simp only [h1, Bool.not_false, if_true, List.lookup_cons, h2]
      exact ih

theorem bytes_ofList (v : List Nat) : Mem.bytes (Mem.ofList v) v.length = v := by
  apply List.ext_getElem
  · simp [Mem.bytes]
  · intro i h1 h2
    simp [Mem.bytes, Mem.ofList, List.getD_eq_getElem?_getD, h2]

theorem bytes_write (m : Mem) (v : List Nat) : Mem.bytes (m.write v) v.length = v := by
  apply List.ext_getElem
  · simp [Mem.bytes]
  · intro i h1 h2
    simp [Mem.bytes, Mem.write, List.getD_eq_getElem?_getD, h2]

/-! ## Lemmas on the byte-level description -/

theorem bytes_split (list : Mem) (size : Nat) (hlt : strnlen list size < size) :
    Mem.bytes list size =
      Mem.bytes list (strnlen list size) ++
        0 :: Mem.bytes (fun i => list (i + (strnlen list size + 1)))
          (size - (strnlen list size + 1)) := by
  have e1 : size = strnlen list size + (1 + (size - (strnlen list size + 1))) := by omega
  conv_lhs => rw [e1]
  rw [bytes_add, Nat.add_comm 1, bytes_succ]
  simp [strnlen_nul size list hlt, Nat.add_assoc, Nat.add_comm 1]

theorem wellFormed_strnlen (list : Mem) (size : Nat) (hs : size ≠ 0)
    (hw : WellFormedList (Mem.bytes list size)) :
    strnlen list size ≠ 0 ∧ strnlen list size ≠ size := by
  obtain ⟨m, rfl⟩ : ∃ m, size = m + 1 := ⟨size - 1, by omega⟩
  have hle := strnlen_le (m + 1) list
  constructor
  · intro hk0
    have hz : list 0 = 0 := by
      have := strnlen_nul (m + 1) list (by omega)
      rwa [hk0] at this
    rw [bytes_succ] at hw
    exact wellFormed_head_ne_zero _ _ hw hz
  · intro hks
    have hmem := wellFormed_has_nul _ (by rw [bytes_succ]; simp) hw
    obtain ⟨i, hi, hz⟩ := mem_bytes hmem
    exact strnlen_nonzero (m + 1) list i (by omega) hz

theorem wellFormed_step (list : Mem) (size : Nat) (h0 : strnlen list size ≠ 0)
    (hlt : strnlen list size < size) :
    WellFormedList (Mem.bytes list size) ↔
      WellFormedList (Mem.bytes (fun i => list (i + (strnlen list size + 1)))
        (size - (strnlen list size + 1))) := by
  have hrun : ∀ b ∈ Mem.bytes list (strnlen list size), b ≠ 0 := by
    intro b hb
    obtain ⟨i, hi, rfl⟩ := mem_bytes hb
    exact strnlen_nonzero size list i hi
  have hne : Mem.bytes list (strnlen list size) ≠ [] := by
    obtain ⟨m, hm⟩ : ∃ m, strnlen list size = m + 1 := ⟨strnlen list size - 1, by omega⟩
    rw [hm, bytes_succ]; simp
  rw [bytes_split list size hlt, wellFormed_entry_append _ _ hne hrun]

theorem wellFormed_iff_byte_level (n : Nat) :
    ∀ list : Mem, 0 < n → (WellFormedList (Mem.bytes list n) ↔ ByteLevelOk list n) := by
  induction n using Nat.strong_induction_on with
  | _ n ih =>
    intro list hn
    have hle := strnlen_le n list
    by_cases hk0 : strnlen list n = 0
    · have hz : list 0 = 0 := by
        have := strnlen_nul n list (by omega)
        rwa [hk0] at this
      constructor
      · intro hw
        exact absurd hk0 (wellFormed_strnlen list n (by omega) hw).1
      · intro hb
        exact absurd hz hb.1
    · by_cases hks : strnlen list n = n
      · constructor
        · intro hw
          exact absurd hks (wellFormed_strnlen list n (by omega) hw).2
        · intro hb
          exact absurd hb.2.1 (strnlen_nonzero n list (n - 1) (by omega))
      · have hlt : strnlen list n < n := by omega
        have hnul := strnlen_nul n list hlt
        have hnz := strnlen_nonzero n list
        rw [wellFormed_step list n hk0 hlt]
        by_cases hm : n - (strnlen list n + 1) = 0
        · rw [hm]
          constructor
          · intro _
            refine ⟨hnz 0 (by omega), ?_, ?_⟩
            · have : n - 1 = strnlen list n := by omega
              rw [this]; exact hnul
            · intro i hi hh
              exact hnz i (by omega) hh.1
          · intro _
            simpa [Mem.bytes] using wellFormed_nil
        · rw [ih (n - (strnlen list n + 1)) (by omega) _ (by omega)]
          simp only [ByteLevelOk]
          have e1 : n - (strnlen list n + 1) - 1 + (strnlen list n + 1) = n - 1 := by omega
          constructor
          · rintro ⟨h1, h2, h3⟩
            refine ⟨hnz 0 (by omega), ?_, ?_⟩
            · rw [e1] at h2; exact h2
            · intro i hi hh
              by_cases hik : i < strnlen list n
              · exact hnz i hik hh.1
              · by_cases hik2 : i = strnlen list n
                · subst hik2
                  simp only [Nat.zero_add] at h1
                  exact h1 hh.2
                · have e2 : i = (i - (strnlen list n + 1)) + (strnlen list n + 1) := by omega
                  have e3 : i + 1 = (i - (strnlen list n + 1)) + 1 + (strnlen list n + 1) := by
                    omega
                  refine h3 (i - (strnlen list n + 1)) (by omega) ⟨?_, ?_⟩
                  · rw [← e2]; exact hh.1
                  · rw [← e3]; exact hh.2
          · rintro ⟨h1, h2, h3⟩
            refine ⟨?_, ?_, ?_⟩
            · simp only [Nat.zero_add]
              intro hz
              exact h3 (strnlen list n) (by omega) ⟨hnul, hz⟩
            · rw [e1]; exact h2
            · intro i hi hh
              refine h3 (i + (strnlen list n + 1)) (by omega) ⟨hh.1, ?_⟩
              have e4 : i + (strnlen list n + 1) + 1 = i + 1 + (strnlen list n + 1) := by omega
              rw [e4]; exact hh.2

theorem verify_body_some (list : Mem) (v v' : verify_vars) (hsz : v.size < SIZE_MOD)
    (h : verify_body list v = some v') :
    0 < verify_thislen list v ∧ verify_thislen list v < v.size ∧
    size_t_add (verify_thislen list v) 1 = verify_thislen list v + 1 ∧
    size_t_sub v.size (size_t_add (verify_thislen list v) 1)
      = v.size - (verify_thislen list v + 1) ∧
    v'.pos = v.pos + (verify_thislen list v + 1) ∧
    v'.size = v.size - (verify_thislen list v + 1) := by
  have hle : verify_thislen list v ≤ v.size := strnlen_le _ _
  simp only [verify_body] at h
  split at h
  · exact absurd h (by simp)
  · rename_i hc
    have hadd : size_t_add (verify_thislen list v) 1 = verify_thislen list v + 1 := by
      simp only [size_t_add, SIZE_MOD] at *; omega
    have hsub : size_t_sub v.size (verify_thislen list v + 1)
        = v.size - (verify_thislen list v + 1) := by
      simp only [size_t_sub, SIZE_MOD] at *; omega
    rw [hadd, hsub] at h
    have hv := (Option.some.inj h).symm
    subst hv
    refine ⟨by omega, by omega, hadd, by rw [hadd, hsub], rfl, rfl⟩

theorem verify_vars_after_inv (list : Mem) (n : Nat) (hn : n < SIZE_MOD) (k : Nat) :
    ∀ v, verify_vars_after list n k = some v → v.pos + v.size = n ∧ 2 * k ≤ v.pos := by
  induction k with
  | zero =>
    intro v h
    simp only [verify_vars_after] at h
    have hv := (Option.some.inj h).symm
    subst hv
    simp
  | succ k ih =>
    intro v h
    simp only [verify_vars_after] at h
    split at h
    · exact absurd h (by simp)
    · rename_i v0 h0
      have hi := ih v0 h0
      split at h
      · exact absurd h (by simp)
      · have hb := verify_body_some list v0 v (by omega) h
        omega

theorem verify_iter_eq (origsize : Nat) (list : Mem) (fuel : Nat) :
    ∀ v : verify_vars, v.size < SIZE_MOD → v.size / 2 + 1 ≤ fuel →
      verify_iter origsize list fuel v
        = some (verify_loop origsize (fun i => list (i + v.pos)) v.size) := by
  induction fuel with
  | zero => intro v _ h; omega
  | succ fuel ih =>
    intro v hsz hf
    rw [verify_loop]
    simp only [verify_iter]
    by_cases h0 : v.size = 0
    · simp [h0]
    · simp only [h0, if_false]
      cases hb : verify_body list v with
      | none =>
        have hc : verify_thislen list v = 0 ∨ verify_thislen list v = v.size := by
          by_contra hc
          simp [verify_body, hc] at hb
        simp only [verify_thislen] at hc
        simp [hc]
      | some v' =>
        have hs := verify_body_some list v v' hsz hb
        have hc : ¬ (strnlen (fun i => list (i + v.pos)) v.size = 0 ∨
            strnlen (fun i => list (i + v.pos)) v.size = v.size) := by
          have := hs.1; have := hs.2.1
          simp only [verify_thislen] at *
          omega
        simp only [hc, if_false]
        rw [ih v' (by omega) (by omega)]
        have hadd := hs.2.2.1
        have hsub := hs.2.2.2.1
        simp only [verify_thislen] at hadd hsub
        rw [hadd] at hsub
        rw [hadd, hsub, hs.2.2.2.2.1, hs.2.2.2.2.2]
        simp only [verify_thislen]
        congr 2
        funext i
        congr 1
        omega

theorem verify_iter_accept (origsize : Nat) (list : Mem) (fuel : Nat) :
    ∀ v : verify_vars, v.size < SIZE_MOD → v.size / 2 ≤ fuel →
      WellFormedList (Mem.bytes (fun i => list (i + v.pos)) v.size) →
      verify_iter origsize list fuel v = some (int_cast origsize) := by
  induction fuel with
  | zero =>
    intro v _ hf hw
    simp only [verify_iter]
    by_cases h0 : v.size = 0
    · simp [h0]
    · have hk := wellFormed_strnlen _ v.size h0 hw
      have hle := strnlen_le v.size (fun i => list (i + v.pos))
      omega
  | succ fuel ih =>
    intro v hsz hf hw
    simp only [verify_iter]
    by_cases h0 : v.size = 0
    · simp [h0]
    · simp only [h0, if_false]
      have hk := wellFormed_strnlen _ v.size h0 hw
      have hle := strnlen_le v.size (fun i => list (i + v.pos))
      cases hb : verify_body list v with
      | none =>
        exfalso
        simp only [verify_body, verify_thislen] at hb
        split at hb
        · rename_i hc
          omega
        · exact absurd hb (by simp)
      | some v' =>
        have hs := verify_body_some list v v' hsz hb
        simp only [verify_thislen] at hs
        refine ih v' (by omega) (by omega) ?_
        have hstep := (wellFormed_step (fun i => list (i + v.pos)) v.size hk.1 (by omega)).1 hw
        rw [hs.2.2.2.2.1, hs.2.2.2.2.2]
        have e : (fun i => list (i + (v.pos + (strnlen (fun i => list (i + v.pos)) v.size + 1))))
            = (fun i => (fun i => list (i + v.pos))
                (i + (strnlen (fun i => list (i + v.pos)) v.size + 1))) := by
          funext i
          congr 1
          omega
        rw [e]
        exact hstep

/-! ## Theorems -/

/-- C1: when an operation's unsupported flag is already true (and, for list,
the calling-process check passes), its dispatcher returns -EOPNOTSUPP and the
whole world (connection, backend state, trace of backend calls and signals) and
the caller buffer are left exactly as they were, for every argument. -/
theorem unsupported_flag_short_circuits {β : Type} (lim : Limits) (w : World β) :
    (w.fc.no_setxattr = true → ∀ inode name value size flags,
        bento_setxattr w inode name value size flags = (-EOPNOTSUPP, w)) ∧
    (w.fc.no_getxattr = true → ∀ inode name value size,
        bento_getxattr lim w inode name value size
          = { ret := -EOPNOTSUPP, buf := value, world := w }) ∧
    (w.fc.no_listxattr = true → ∀ inode list size,
        bento_listxattr lim w true inode list size
          = { ret := -EOPNOTSUPP, buf := list, world := w }) ∧
    (w.fc.no_removexattr = true → ∀ inode name,
        bento_removexattr w inode name = (-EOPNOTSUPP, w)) := by
  refine ⟨?_, ?_, ?_, ?_⟩
  · intro h inode name value size flags
    simp [bento_setxattr, h]
  · intro h inode name value size
    simp [bento_getxattr, h]
  · intro h inode list size
    simp [bento_listxattr, h]
  · intro h inode name
    simp [bento_removexattr, h]

/-- Witness of C1 on a connection with all four flags set. -/
theorem unsupported_flag_short_circuits_witness :
    bento_setxattr (all_unsupported (const_ops 0 0 zero_mem) ()) 1 "user.x" none 0 0
        = (-EOPNOTSUPP, all_unsupported (const_ops 0 0 zero_mem) ()) ∧
    (bento_getxattr linux_limits (all_unsupported (const_ops 0 0 zero_mem) ()) 1 "user.x"
        zero_mem 0).ret = -EOPNOTSUPP ∧
    (bento_listxattr linux_limits (all_unsupported (const_ops 0 0 zero_mem) ()) true 1
        zero_mem 16).ret = -EOPNOTSUPP ∧
    bento_removexattr (all_unsupported (const_ops 0 0 zero_mem) ()) 1 "user.x"
        = (-EOPNOTSUPP, all_unsupported (const_ops 0 0 zero_mem) ()) :=
  ⟨(unsupported_flag_short_circuits linux_limits
      (all_unsupported (const_ops 0 0 zero_mem) ())).1 rfl 1 "user.x" none 0 0,
   congrArg xattr_result.ret ((unsupported_flag_short_circuits linux_limits
      (all_unsupported (const_ops 0 0 zero_mem) ())).2.1 rfl 1 "user.x" zero_mem 0),
   congrArg xattr_result.ret ((unsupported_flag_short_circuits linux_limits
      (all_unsupported (const_ops 0 0 zero_mem) ())).2.2.1 rfl 1 zero_mem 16),
   (unsupported_flag_short_circuits linux_limits
      (all_unsupported (const_ops 0 0 zero_mem) ())).2.2.2 rfl 1 "user.x"⟩

/-- C2 (counterexample): a backend that itself answers -EOPNOTSUPP to
removexattr. The first call returns Unsupported after one backend invocation;
the flag is not set, and the second call invokes the backend again (two
invocations), although Unsupported had already been observed. -/
theorem unsupported_from_backend_is_not_cached :
    (step linux_limits (mount (const_ops (-95) 0 zero_mem) ())
        (Request.removexattr 1 "user.x")).1 = -EOPNOTSUPP ∧
    calls Op.remove (step linux_limits (mount (const_ops (-95) 0 zero_mem) ())
        (Request.removexattr 1 "user.x")).2 = 1 ∧
    (step linux_limits (step linux_limits (mount (const_ops (-95) 0 zero_mem) ())
        (Request.removexattr 1 "user.x")).2 (Request.removexattr 1 "user.x")).1 = -EOPNOTSUPP ∧
    calls Op.remove (step linux_limits (step linux_limits (mount (const_ops (-95) 0 zero_mem) ())
        (Request.removexattr 1 "user.x")).2 (Request.removexattr 1 "user.x")).2 = 2 := by
  decide

/-- C2 (amended): once an operation's unsupported flag is set on a connection,
then after any further sequence of calls every call of that operation whose
calling-process check passes returns -EOPNOTSUPP and leaves the world as it
is, and the number of backend invocations of that operation never grows. -/
theorem unsupported_flag_is_sticky {β : Type} (lim : Limits) (w : World β) (op : Op)
    (hflag : op.flag w.fc = true) (reqs : List Request) (r : Request) (hop : r.op = op)
    (hallow : r.allowed = true) :
    (step lim (run lim w reqs) r).1 = -EOPNOTSUPP ∧
    (step lim (run lim w reqs) r).2 = run lim w reqs ∧
    calls op (step lim (run lim w reqs) r).2 = calls op w ∧
    calls op (run lim w reqs) = calls op w := by
  have hf := run_flag_mono lim reqs w op hflag
  have hs := step_unsupported lim (run lim w reqs) r (by rw [hop]; exact hf) hallow
  have hc := run_calls_flagged lim reqs w op hflag
  rw [hs]
  exact ⟨rfl, rfl, hc, hc⟩

/-- Witness of C2 (amended): a backend without removexattr (it answers -ENOSYS);
the first removal sets the flag, and a removal after an intervening getxattr is
answered without a further backend invocation. -/
theorem unsupported_flag_is_sticky_witness :
    Op.remove.flag (step linux_limits (mount (const_ops (-38) 0 zero_mem) ())
        (Request.removexattr 1 "user.x")).2.fc = true ∧
    (step linux_limits
        (run linux_limits
          (step linux_limits (mount (const_ops (-38) 0 zero_mem) ())
            (Request.removexattr 1 "user.x")).2
          [Request.getxattr 1 "user.x" zero_mem 0])
        (Request.removexattr 1 "user.x")).1 = -EOPNOTSUPP ∧
    calls Op.remove (run linux_limits
          (step linux_limits (mount (const_ops (-38) 0 zero_mem) ())
            (Request.removexattr 1 "user.x")).2
          [Request.getxattr 1 "user.x" zero_mem 0]) = 1 :=
  have h := unsupported_flag_is_sticky linux_limits
    (step linux_limits (mount (const_ops (-38) 0 zero_mem) ()) (Request.removexattr 1 "user.x")).2
    Op.remove (by decide) [Request.getxattr 1 "user.x" zero_mem 0]
    (Request.removexattr 1 "user.x") rfl rfl
  ⟨by decide, h.1, h.2.2.2.trans (by decide)⟩

/-- Where the translation of the backend's -ENOSYS works as meant: from a state
where the operation's flag is false (and, for list, the calling-process check
passes), a backend answer of -ENOSYS makes the dispatcher return -EOPNOTSUPP
(not -ENOSYS) with the flag true afterwards, for all four operations; and the
flag is true afterwards only if the backend answered -ENOSYS, for set, get and
remove always and for list whenever the validator's `int` result can hold the
backend's count (size query, or a count of at most INT_MAX). -/
theorem enosys_marks_unsupported {β : Type} (lim : Limits) (w : World β) :
    (w.fc.no_setxattr = false → ∀ inode name value size flags,
      ((call_setxattr w inode name value size flags).1 = -ENOSYS →
        (bento_setxattr w inode name value size flags).1 = -EOPNOTSUPP ∧
        (bento_setxattr w inode name value size flags).1 ≠ -ENOSYS ∧
        (bento_setxattr w inode name value size flags).2.fc.no_setxattr = true) ∧
      ((bento_setxattr w inode name value size flags).2.fc.no_setxattr = true →
        (call_setxattr w inode name value size flags).1 = -ENOSYS)) ∧
    (w.fc.no_getxattr = false → ∀ inode name value size,
      ((call_getxattr w inode name value size).1.ret = -ENOSYS →
        (bento_getxattr lim w inode name value size).ret = -EOPNOTSUPP ∧
        (bento_getxattr lim w inode name value size).ret ≠ -ENOSYS ∧
        (bento_getxattr lim w inode name value size).world.fc.no_getxattr = true) ∧
      ((bento_getxattr lim w inode name value size).world.fc.no_getxattr = true →
        (call_getxattr w inode name value size).1.ret = -ENOSYS)) ∧
    (w.fc.no_listxattr = false → ∀ inode list size,
      ((call_listxattr w inode list size).1.ret = -ENOSYS →
        (bento_listxattr lim w true inode list size).ret = -EOPNOTSUPP ∧
        (bento_listxattr lim w true inode list size).ret ≠ -ENOSYS ∧
        (bento_listxattr lim w true inode list size).world.fc.no_listxattr = true) ∧
      (size = 0 ∨ (call_listxattr w inode list size).1.ret ≤ 2147483647 →
        (bento_listxattr lim w true inode list size).world.fc.no_listxattr = true →
        (call_listxattr w inode list size).1.ret = -ENOSYS)) ∧
    (w.fc.no_removexattr = false → ∀ inode name,
      ((call_removexattr w inode name).1 = -ENOSYS →
        (bento_removexattr w inode name).1 = -EOPNOTSUPP ∧
        (bento_removexattr w inode name).1 ≠ -ENOSYS ∧
        (bento_removexattr w inode name).2.fc.no_removexattr = true) ∧
      ((bento_removexattr w inode name).2.fc.no_removexattr = true →
        (call_removexattr w inode name).1 = -ENOSYS)) := by
  refine ⟨?_, ?_, ?_, ?_⟩
  · intro h inode name value size flags
    simp only [bento_setxattr, h, ENOSYS, EOPNOTSUPP, bento_update_ctime, bento_invalidate_attr]
    constructor
    · intro he; simp [he]
    · split_ifs <;> simp_all
  · intro h inode name value size
    simp only [bento_getxattr, h, ENOSYS, EOPNOTSUPP]
    constructor
    · intro he; simp [he]
    · split_ifs <;> simp_all
      omega
  · intro h inode list size
    simp only [bento_listxattr, h, ENOSYS, EOPNOTSUPP]
    constructor
    · intro he; simp [he]
    · intro hb
      by_cases hs : size = 0
      · subst hs
        by_cases h0 : (call_listxattr w inode list 0).1.ret = 0
        · simp [h0]
          split_ifs <;> simp_all
          omega
        · simp [h0]
          split_ifs <;> simp_all
      · have hle : (call_listxattr w inode list size).1.ret ≤ 2147483647 := by
          rcases hb with hb | hb
          · exact absurd hb hs
          · exact hb
        by_cases hp : 0 < (call_listxattr w inode list size).1.ret
        · have hc := verify_cases (call_listxattr w inode list size).1.data
            (call_listxattr w inode list size).1.ret.toNat (by simp only [SIZE_MOD]; omega)
          have hi := int_cast_of_int_range
            ((call_listxattr w inode list size).1.ret.toNat : Int) (by omega) (by omega)
          have hne : bento_verify_xattr_list (call_listxattr w inode list size).1.data
              (call_listxattr w inode list size).1.ret.toNat ≠ -38 := by
            rcases hc with hc | hc
            · rw [hc, hi]; omega
            · rw [hc]; decide
          have hz : (call_listxattr w inode list size).1.ret ≠ 0 := by omega
          simp [hs, hp, hz, hne, h]
        · simp [hs, hp]
          split_ifs <;> simp_all
  · intro h inode name
    simp only [bento_removexattr, h, ENOSYS, EOPNOTSUPP, bento_update_ctime, bento_invalidate_attr]
    constructor
    · intro he; simp [he]
    · split_ifs <;> simp_all

/-- The translation of -ENOSYS on a backend answering -ENOSYS to everything, on
a fresh connection. -/
theorem enosys_marks_unsupported_witness :
    (bento_setxattr (mount (const_ops (-38) 0 zero_mem) ()) 1 "user.x" none 0 0).1
        = -EOPNOTSUPP ∧
    (bento_getxattr linux_limits (mount (const_ops (-38) 0 zero_mem) ()) 1 "user.x" zero_mem
        0).ret = -EOPNOTSUPP ∧
    (bento_listxattr linux_limits (mount (const_ops (-38) 0 zero_mem) ()) true 1 zero_mem
        0).world.fc.no_listxattr = true ∧
    (bento_removexattr (mount (const_ops (-38) 0 zero_mem) ()) 1 "user.x").2.fc.no_removexattr
        = true :=
  ⟨(((enosys_marks_unsupported linux_limits (mount (const_ops (-38) 0 zero_mem) ())).1 rfl
      1 "user.x" none 0 0).1 (by decide)).1,
   (((enosys_marks_unsupported linux_limits (mount (const_ops (-38) 0 zero_mem) ())).2.1 rfl
      1 "user.x" zero_mem 0).1 (by decide)).1,
   (((enosys_marks_unsupported linux_limits (mount (const_ops (-38) 0 zero_mem) ())).2.2.1 rfl
      1 zero_mem 0).1 (by decide)).2.2,
   (((enosys_marks_unsupported linux_limits (mount (const_ops (-38) 0 zero_mem) ())).2.2.2 rfl
      1 "user.x").1 (by decide)).2.2⟩

/-- C4: when the backend is invoked (flag false; for list, calling-process
check passed) and answers a negative code `e` other than -ENOSYS, in
size-query or fill mode alike, the dispatcher returns exactly `e`, the
connection (all four flags) is unchanged, and the trace gains the backend call
only: no invalidation and no change-time signal. -/
theorem backend_errors_pass_through {β : Type} (lim : Limits) (w : World β) (e : Int)
    (hneg : e < 0) (hne : e ≠ -ENOSYS) :
    (w.fc.no_setxattr = false → ∀ inode name value size flags,
      (call_setxattr w inode name value size flags).1 = e →
      bento_setxattr w inode name value size flags =
        (e, { w with fs := (call_setxattr w inode name value size flags).2,
                     trace := w.trace ++ [Event.fs_setxattr] })) ∧
    (w.fc.no_getxattr = false → ∀ inode name value size,
      (call_getxattr w inode name value size).1.ret = e →
      bento_getxattr lim w inode name value size =
        { ret := e, buf := (call_getxattr w inode name value size).1.data,
          world := { w with fs := (call_getxattr w inode name value size).2,
                            trace := w.trace ++ [Event.fs_getxattr] } }) ∧
    (w.fc.no_listxattr = false → ∀ inode list size,
      (call_listxattr w inode list size).1.ret = e →
      bento_listxattr lim w true inode list size =
        { ret := e, buf := (call_listxattr w inode list size).1.data,
          world := { w with fs := (call_listxattr w inode list size).2,
                            trace := w.trace ++ [Event.fs_listxattr] } }) ∧
    (w.fc.no_removexattr = false → ∀ inode name,
      (call_removexattr w inode name).1 = e →
      bento_removexattr w inode name =
        (e, { w with fs := (call_removexattr w inode name).2,
                     trace := w.trace ++ [Event.fs_removexattr] })) := by
  have h0 : e ≠ 0 := by omega
  have hp : ¬ (0 < e) := by omega
  refine ⟨?_, ?_, ?_, ?_⟩
  · intro h inode name value size flags he
    simp [bento_setxattr, h, he, hne, h0]
  · intro h inode name value size he
    simp [bento_getxattr, h, he, hne, h0]
  · intro h inode list size he
    simp [bento_listxattr, h, he, hne, h0, hp]
  · intro h inode name he
    simp [bento_removexattr, h, he, hne, h0]

/-- Witness of C4: a backend answering -ENODATA (-61) to everything, in
size-query mode for get and in fill mode for list. -/
theorem backend_errors_pass_through_witness :
    (bento_setxattr (mount (const_ops (-61) 0 zero_mem) ()) 1 "user.x" none 0 0).1 = -61 ∧
    (bento_getxattr linux_limits (mount (const_ops (-61) 0 zero_mem) ()) 1 "user.x" zero_mem
        0).ret = -61 ∧
    (bento_listxattr linux_limits (mount (const_ops (-61) 0 zero_mem) ()) true 1 zero_mem
        16).ret = -61 ∧
    (bento_removexattr (mount (const_ops (-61) 0 zero_mem) ()) 1 "user.x").1 = -61 :=
  ⟨congrArg Prod.fst
      ((backend_errors_pass_through linux_limits (mount (const_ops (-61) 0 zero_mem) ()) (-61)
        (by decide) (by decide)).1 rfl 1 "user.x" none 0 0 rfl),
   congrArg xattr_result.ret
      ((backend_errors_pass_through linux_limits (mount (const_ops (-61) 0 zero_mem) ()) (-61)
        (by decide) (by decide)).2.1 rfl 1 "user.x" zero_mem 0 rfl),
   congrArg xattr_result.ret
      ((backend_errors_pass_through linux_limits (mount (const_ops (-61) 0 zero_mem) ()) (-61)
        (by decide) (by decide)).2.2.1 rfl 1 zero_mem 16 rfl),
   congrArg Prod.fst
      ((backend_errors_pass_through linux_limits (mount (const_ops (-61) 0 zero_mem) ()) (-61)
        (by decide) (by decide)).2.2.2 rfl 1 "user.x" rfl)⟩

/-- C5: the unsupported flags are monotone. A flag that is true before a call
of any of the six entry points is true after it, whatever the arguments and
whatever the backend answers; hence also after every finite sequence of
calls. -/
theorem flags_are_monotone {β : Type} (lim : Limits) (w : World β) (op : Op)
    (h : op.flag w.fc = true) :
    (∀ inode name value size flags,
      op.flag (bento_setxattr w inode name value size flags).2.fc = true) ∧
    (∀ inode name value size,
      op.flag (bento_getxattr lim w inode name value size).world.fc = true) ∧
    (∀ allowed inode list size,
      op.flag (bento_listxattr lim w allowed inode list size).world.fc = true) ∧
    (∀ inode name, op.flag (bento_removexattr w inode name).2.fc = true) ∧
    (∀ inode name value size,
      op.flag (bento_xattr_get lim w inode name value size).world.fc = true) ∧
    (∀ inode name value size flags,
      op.flag (bento_xattr_set w inode name value size flags).2.fc = true) ∧
    (∀ reqs : List Request, op.flag (run lim w reqs).fc = true) := by
  refine ⟨?_, ?_, ?_, ?_, ?_, ?_, ?_⟩
  · intro inode name value size flags
    exact step_flag_mono lim w (Request.setxattr inode name value size flags) op h
  · intro inode name value size
    exact step_flag_mono lim w (Request.getxattr inode name value size) op h
  · intro allowed inode list size
    exact step_flag_mono lim w (Request.listxattr allowed inode list size) op h
  · intro inode name
    exact step_flag_mono lim w (Request.removexattr inode name) op h
  · intro inode name value size
    exact step_flag_mono lim w (Request.xattr_get inode name value size) op h
  · intro inode name value size flags
    exact step_flag_mono lim w (Request.xattr_set inode name value size flags) op h
  · intro reqs
    exact run_flag_mono lim reqs w op h

/-- Witness of C5: on a connection with every flag set, `no_getxattr` survives
a set, a removal through the handler and a listing. -/
theorem flags_are_monotone_witness :
    Op.get.flag (all_unsupported (const_ops 0 0 zero_mem) ()).fc = true ∧
    Op.get.flag (run linux_limits (all_unsupported (const_ops 0 0 zero_mem) ())
      [Request.setxattr 1 "user.x" none 0 0, Request.xattr_set 1 "user.x" none 0 0,
       Request.listxattr true 1 zero_mem 0]).fc = true :=
  ⟨rfl, (flags_are_monotone linux_limits (all_unsupported (const_ops 0 0 zero_mem) ()) Op.get
      rfl).2.2.2.2.2.2 _⟩

/-- C6 (counterexample): in size-query mode a backend whose getxattr returns
the positive value 1000000 (instead of returning 0 and reporting the size in
`outarg.size`) gets it back unclamped, above XATTR_SIZE_MAX = 65536. -/
theorem size_query_positive_return_unclamped :
    (bento_getxattr linux_limits (mount (const_ops 1000000 0 zero_mem) ()) 1 "user.x" zero_mem
        0).ret = 1000000 ∧
    ¬ ((bento_getxattr linux_limits (mount (const_ops 1000000 0 zero_mem) ()) 1 "user.x"
        zero_mem 0).ret ≤ (linux_limits.XATTR_SIZE_MAX : Int)) := by
  decide

/-- C6 (amended): in size-query mode (size = 0), whenever the backend's return
code is zero or negative, whatever size it reports, the value returned by
`bento_getxattr` is at most XATTR_SIZE_MAX and the value returned by
`bento_listxattr` is at most XATTR_LIST_MAX; this holds in every state of the
flags and of the calling-process check. -/
theorem size_query_result_capped {β : Type} (lim : Limits) (w : World β) :
    (∀ inode name value, (call_getxattr w inode name value 0).1.ret ≤ 0 →
      (bento_getxattr lim w inode name value 0).ret ≤ (lim.XATTR_SIZE_MAX : Int)) ∧
    (∀ allowed inode list, (call_listxattr w inode list 0).1.ret ≤ 0 →
      (bento_listxattr lim w allowed inode list 0).ret ≤ (lim.XATTR_LIST_MAX : Int)) := by
  constructor
  · intro inode name value h
    simp only [bento_getxattr, ENOSYS, EOPNOTSUPP]
    split_ifs <;> simp_all <;> omega
  · intro allowed inode list h
    simp only [bento_listxattr, ENOSYS, EOPNOTSUPP, EACCES]
    split_ifs <;> simp_all <;> omega

/-- Witness of C6 (amended): the backend returns 0 and reports 1000000. -/
theorem size_query_result_capped_witness :
    (bento_getxattr linux_limits (mount (const_ops 0 1000000 zero_mem) ()) 1 "user.x" zero_mem
        0).ret ≤ 65536 ∧
    (bento_listxattr linux_limits (mount (const_ops 0 1000000 zero_mem) ()) true 1 zero_mem
        0).ret ≤ 65536 :=
  ⟨(size_query_result_capped linux_limits (mount (const_ops 0 1000000 zero_mem) ())).1
      1 "user.x" zero_mem (by decide),
   (size_query_result_capped linux_limits (mount (const_ops 0 1000000 zero_mem) ())).2
      true 1 zero_mem (by decide)⟩

/-- C7: in size-query mode, with the flag false (and, for list, the
calling-process check passed), when the backend returns 0 and reports the size
`r` in `outarg.size`, `bento_getxattr` returns min(r, XATTR_SIZE_MAX) and
`bento_listxattr` returns min(r, XATTR_LIST_MAX); the result is not negative
and the connection, with all its flags, is unchanged. -/
theorem size_query_returns_min {β : Type} (lim : Limits) (w : World β) (r : Nat) :
    (w.fc.no_getxattr = false → ∀ inode name value,
      (call_getxattr w inode name value 0).1.ret = 0 →
      (call_getxattr w inode name value 0).1.outarg.size = r →
      (bento_getxattr lim w inode name value 0).ret = ((min r lim.XATTR_SIZE_MAX : Nat) : Int) ∧
      0 ≤ (bento_getxattr lim w inode name value 0).ret ∧
      (bento_getxattr lim w inode name value 0).world.fc = w.fc) ∧
    (w.fc.no_listxattr = false → ∀ inode list,
      (call_listxattr w inode list 0).1.ret = 0 →
      (call_listxattr w inode list 0).1.outarg.size = r →
      (bento_listxattr lim w true inode list 0).ret = ((min r lim.XATTR_LIST_MAX : Nat) : Int) ∧
      0 ≤ (bento_listxattr lim w true inode list 0).ret ∧
      (bento_listxattr lim w true inode list 0).world.fc = w.fc) := by
  constructor
  · intro h inode name value h0 hr
    simp only [bento_getxattr, h, h0, hr, ENOSYS]
    have : ¬ (min (r : Int) (lim.XATTR_SIZE_MAX : Int) = -38) := by omega
    simp [this]
  · intro h inode list h0 hr
    simp only [bento_listxattr, h, h0, hr, ENOSYS]
    have : ¬ (min (r : Int) (lim.XATTR_LIST_MAX : Int) = -38) := by omega
    simp [this]

/-- Witness of C7: reported sizes 1000000 (clamped to 65536) and 12 (kept). -/
theorem size_query_returns_min_witness :
    (bento_getxattr linux_limits (mount (const_ops 0 1000000 zero_mem) ()) 1 "user.x" zero_mem
        0).ret = 65536 ∧
    (bento_listxattr linux_limits (mount (const_ops 0 12 zero_mem) ()) true 1 zero_mem
        0).ret = 12 :=
  ⟨((size_query_returns_min linux_limits (mount (const_ops 0 1000000 zero_mem) ()) 1000000).1
      rfl 1 "user.x" zero_mem rfl rfl).1,
   ((size_query_returns_min linux_limits (mount (const_ops 0 12 zero_mem) ()) 12).2
      rfl 1 zero_mem rfl rfl).1⟩

/-- Where the validator works as meant: for every buffer and every length n
that its `int` result can hold (n up to INT_MAX),
`bento_verify_xattr_list(list, n)` returns n if and only if the first n bytes
are a concatenation of zero or more entries, each a non-empty run of non-NUL
bytes followed by one NUL byte, and returns -EIO in every other case. So
"a\0bb\0" with n = 5 gives 5, "a\0\0" with n = 3 gives -EIO and "ab" with
n = 2 gives -EIO. -/
theorem verify_accepts_exactly_well_formed (list : Mem) (n : Nat) (hn : n ≤ 2147483647) :
    (bento_verify_xattr_list list n = (n : Int) ↔ WellFormedList (Mem.bytes list n)) ∧
    (¬ WellFormedList (Mem.bytes list n) → bento_verify_xattr_list list n = - EIO) ∧
    bento_verify_xattr_list (Mem.ofList [97, 0, 98, 98, 0]) 5 = 5 ∧
    bento_verify_xattr_list (Mem.ofList [97, 0, 0]) 3 = - EIO ∧
    bento_verify_xattr_list (Mem.ofList [97, 98]) 2 = - EIO := by
  have hspec := verify_small list n hn
  refine ⟨⟨fun h => ?_, hspec.1⟩, hspec.2, ?_, ?_, ?_⟩
  · by_contra hw
    rw [hspec.2 hw] at h
    simp only [ EIO] at h
    omega
  · simp [bento_verify_xattr_list, verify_loop, strnlen, Mem.ofList, size_t_add, size_t_sub,
      SIZE_MOD, int_cast]
  · simp [bento_verify_xattr_list, verify_loop, strnlen, Mem.ofList, size_t_add, size_t_sub,
      SIZE_MOD, int_cast]
  · simp [bento_verify_xattr_list, verify_loop, strnlen, Mem.ofList, size_t_add, size_t_sub,
      SIZE_MOD, int_cast]

/-- The buffer "a\0bb\0" of length 5 is well formed and accepted with result
5. -/
theorem verify_accepts_exactly_well_formed_witness :
    WellFormedList (Mem.bytes (Mem.ofList [97, 0, 98, 98, 0]) 5) ∧
    bento_verify_xattr_list (Mem.ofList [97, 0, 98, 98, 0]) 5 = ((5 : Nat) : Int) :=
  have hw : WellFormedList (Mem.bytes (Mem.ofList [97, 0, 98, 98, 0]) 5) :=
    ⟨[[97, 0], [98, 98, 0]],
      by
        intro e he
        simp at he
        rcases he with rfl | rfl
        · exact ⟨[97], by simp, by simp, rfl⟩
        · exact ⟨[98, 98], by simp, by simp, rfl⟩,
      by decide⟩
  ⟨hw, (verify_accepts_exactly_well_formed (Mem.ofList [97, 0, 98, 98, 0]) 5 (by decide)).1.2 hw⟩

/-- Where fill-mode validation works as meant: for every fill-mode call of
`bento_listxattr` (size > 0, calling-process check passed, flag false) in
which the backend returns a positive byte count n that the validator's `int`
result can hold (n up to INT_MAX): the result is n when the first n bytes of
the buffer as the backend left it form a well-formed list, and -EIO
otherwise; a positive result is therefore exactly n and describes a validated
buffer; and the connection, with its list flag, is unchanged in both cases. -/
theorem listxattr_fill_validates {β : Type} (lim : Limits) (w : World β) (inode : Nat)
    (list : Mem) (size : Nat) (n : Nat) (hsize : 0 < size)
    (hflag : w.fc.no_listxattr = false)
    (hret : (call_listxattr w inode list size).1.ret = (n : Int))
    (hpos : 0 < n) (hmax : n ≤ 2147483647) :
    (WellFormedList (Mem.bytes (call_listxattr w inode list size).1.data n) →
      (bento_listxattr lim w true inode list size).ret = (n : Int)) ∧
    (¬ WellFormedList (Mem.bytes (call_listxattr w inode list size).1.data n) →
      (bento_listxattr lim w true inode list size).ret = - EIO) ∧
    (0 < (bento_listxattr lim w true inode list size).ret →
      (bento_listxattr lim w true inode list size).ret = (n : Int) ∧
      WellFormedList (Mem.bytes (call_listxattr w inode list size).1.data n)) ∧
    (bento_listxattr lim w true inode list size).buf = (call_listxattr w inode list size).1.data ∧
    (bento_listxattr lim w true inode list size).world.fc = w.fc := by
  have hv := verify_small (call_listxattr w inode list size).1.data n hmax
  have hs : size ≠ 0 := by omega
  have hn0 : ¬ ((n : Int) = 0) := by omega
  have hnp : (0 : Int) < (n : Int) := by omega
  have hne : bento_verify_xattr_list (call_listxattr w inode list size).1.data n ≠ -38 := by
    by_cases hw : WellFormedList (Mem.bytes (call_listxattr w inode list size).1.data n)
    · rw [hv.1 hw]; omega
    · rw [hv.2 hw]; decide
  have key : bento_listxattr lim w true inode list size =
      { ret := bento_verify_xattr_list (call_listxattr w inode list size).1.data n
        buf := (call_listxattr w inode list size).1.data
        world := { w with fs := (call_listxattr w inode list size).2,
                          trace := w.trace ++ [Event.fs_listxattr] } } := by
    simp [bento_listxattr, hflag, hret, hs, hn0, hnp, hne, ENOSYS]
  rw [key]
  refine ⟨hv.1, hv.2, ?_, rfl, rfl⟩
  intro hp
  by_cases hw : WellFormedList (Mem.bytes (call_listxattr w inode list size).1.data n)
  · exact ⟨hv.1 hw, hw⟩
  · exfalso
    simp only [hv.2 hw, EIO] at hp
    omega

/-- Fill-mode validation when the backend fills the buffer with "a\0a\0" and
returns 4. -/
theorem listxattr_fill_validates_witness :
    (bento_listxattr linux_limits (mount (const_ops 4 0 alt_mem) ()) true 1 zero_mem 16).ret
        = 4 ∧
    (bento_listxattr linux_limits (mount (const_ops 4 0 alt_mem) ()) true 1 zero_mem
        16).world.fc = (mount (const_ops 4 0 alt_mem) ()).fc :=
  have h := listxattr_fill_validates linux_limits (mount (const_ops 4 0 alt_mem) ()) 1 zero_mem
    16 4 (by decide) rfl rfl (by decide) (by decide)
  ⟨h.1 (alt_mem_well_formed 2), h.2.2.2.2⟩

/-- C10: a set request with an absent (NULL) value is a remove. Through the
handler entry point it yields the same result and the same world as
`bento_removexattr`: the backend's setxattr is not invoked and `no_setxattr`
is untouched; whereas with a value present, of any size (zero included), it is
`bento_setxattr` on that value. -/
theorem xattr_set_null_is_remove {β : Type} (w : World β) (inode : Nat) (name : String)
    (size : Nat) (flags : Int) :
    bento_xattr_set w inode name none size flags = bento_removexattr w inode name ∧
    calls Op.set (bento_xattr_set w inode name none size flags).2 = calls Op.set w ∧
    (bento_xattr_set w inode name none size flags).2.fc.no_setxattr = w.fc.no_setxattr ∧
    (bento_xattr_set w inode name none size flags).2.fc.no_getxattr = w.fc.no_getxattr ∧
    (bento_xattr_set w inode name none size flags).2.fc.no_listxattr = w.fc.no_listxattr ∧
    (∀ v : Mem, bento_xattr_set w inode name (some v) size flags
        = bento_setxattr w inode name (some v) size flags) ∧
    (∀ v : Mem, bento_xattr_set w inode name (some v) 0 flags
        = bento_setxattr w inode name (some v) 0 flags) ∧
    (∀ v : Mem, calls Op.remove (bento_xattr_set w inode name (some v) size flags).2
        = calls Op.remove w) := by
  have hf := removexattr_flags w inode name
  refine ⟨rfl, ?_, hf.2.1, hf.2.2.1, hf.2.2.2, fun _ => rfl, fun _ => rfl, ?_⟩
  · exact removexattr_calls w inode name Op.set (Or.inl (by decide))
  · intro v
    exact setxattr_calls w inode name (some v) size flags Op.remove (Or.inl (by decide))

/-- C11: with the two signals counted in the state, a call of `bento_setxattr`
or `bento_removexattr` that returns 0 fires exactly one `bento_invalidate_attr`
and exactly one `bento_update_ctime` (both for the inode of the call), and a
call that returns anything else fires neither; `bento_getxattr` and
`bento_listxattr` never fire either. -/
theorem signals_fire_exactly_on_success {β : Type} (lim : Limits) (w : World β) :
    (∀ inode name value size flags,
      ((bento_setxattr w inode name value size flags).1 = 0 →
        invalidations (bento_setxattr w inode name value size flags).2 = invalidations w + 1 ∧
        ctime_updates (bento_setxattr w inode name value size flags).2 = ctime_updates w + 1 ∧
        (bento_setxattr w inode name value size flags).2.trace =
          w.trace ++ [Event.fs_setxattr, Event.invalidate_attr inode, Event.update_ctime inode]) ∧
      ((bento_setxattr w inode name value size flags).1 ≠ 0 →
        invalidations (bento_setxattr w inode name value size flags).2 = invalidations w ∧
        ctime_updates (bento_setxattr w inode name value size flags).2 = ctime_updates w)) ∧
    (∀ inode name,
      ((bento_removexattr w inode name).1 = 0 →
        invalidations (bento_removexattr w inode name).2 = invalidations w + 1 ∧
        ctime_updates (bento_removexattr w inode name).2 = ctime_updates w + 1 ∧
        (bento_removexattr w inode name).2.trace =
          w.trace ++ [Event.fs_removexattr, Event.invalidate_attr inode,
            Event.update_ctime inode]) ∧
      ((bento_removexattr w inode name).1 ≠ 0 →
        invalidations (bento_removexattr w inode name).2 = invalidations w ∧
        ctime_updates (bento_removexattr w inode name).2 = ctime_updates w)) ∧
    (∀ inode name value size,
      invalidations (bento_getxattr lim w inode name value size).world = invalidations w ∧
      ctime_updates (bento_getxattr lim w inode name value size).world = ctime_updates w) ∧
    (∀ allowed inode list size,
      invalidations (bento_listxattr lim w allowed inode list size).world = invalidations w ∧
      ctime_updates (bento_listxattr lim w allowed inode list size).world = ctime_updates w) := by
  refine ⟨?_, ?_, ?_, ?_⟩
  · intro inode name value size flags
    simp only [bento_setxattr, bento_update_ctime, bento_invalidate_attr, invalidations,
      ctime_updates, ENOSYS, EOPNOTSUPP]
    split_ifs <;> simp_all [List.countP_append, List.countP_cons, Event.is_invalidate,
      Event.is_ctime]
  · intro inode name
    simp only [bento_removexattr, bento_update_ctime, bento_invalidate_attr, invalidations,
      ctime_updates, ENOSYS, EOPNOTSUPP]
    split_ifs <;> simp_all [List.countP_append, List.countP_cons, Event.is_invalidate,
      Event.is_ctime]
  · intro inode name value size
    simp only [bento_getxattr, invalidations, ctime_updates]
    split_ifs <;> simp [List.countP_append, List.countP_cons, Event.is_invalidate,
      Event.is_ctime]
  · intro allowed inode list size
    simp only [bento_listxattr, invalidations, ctime_updates]
    split_ifs <;> simp [List.countP_append, List.countP_cons, Event.is_invalidate,
      Event.is_ctime]

/-- Witness of C11: a successful set, a failing removal (-ENODATA). -/
theorem signals_fire_exactly_on_success_witness :
    invalidations (bento_setxattr (mount (const_ops 0 0 zero_mem) ()) 1 "user.x" none 0 0).2
        = invalidations (mount (const_ops 0 0 zero_mem) ()) + 1 ∧
    ctime_updates (bento_removexattr (mount (const_ops (-61) 0 zero_mem) ()) 1 "user.x").2
        = ctime_updates (mount (const_ops (-61) 0 zero_mem) ()) :=
  ⟨((((signals_fire_exactly_on_success linux_limits (mount (const_ops 0 0 zero_mem) ())).1
      1 "user.x" none 0 0).1) (by decide)).1,
   ((((signals_fire_exactly_on_success linux_limits (mount (const_ops (-61) 0 zero_mem) ())).2.1
      1 "user.x").2) (by decide)).2⟩

/-- C12: when the calling-process check fails, `bento_listxattr` returns
-EACCES (which is not -EOPNOTSUPP) whatever the size, the buffer and the four
flags are, `no_listxattr` true included; the world (flags, backend state, trace:
no backend call) and the buffer are left as they were. -/
theorem listxattr_denied_before_anything {β : Type} (lim : Limits) (w : World β) (inode : Nat)
    (list : Mem) (size : Nat) :
    bento_listxattr lim w false inode list size = { ret := -EACCES, buf := list, world := w } ∧
    (bento_listxattr lim w false inode list size).ret ≠ -EOPNOTSUPP ∧
    calls Op.list (bento_listxattr lim w false inode list size).world = calls Op.list w ∧
    (bento_listxattr lim (all_unsupported w.fc.fs_ops w.fs) false inode list size).ret
      = -EACCES := by
  simp [bento_listxattr, EACCES, EOPNOTSUPP]

/-- C13 (counterexample): in fill mode (size = 100000) a backend whose
getxattr returns 70000 gets that value back from `bento_getxattr`: a
non-negative result above XATTR_SIZE_MAX = 65536. -/
theorem fill_mode_result_above_ceiling :
    (bento_getxattr linux_limits (mount (const_ops 70000 0 zero_mem) ()) 1 "user.x" zero_mem
        100000).ret = 70000 ∧
    (0 : Int) ≤ 70000 ∧
    ¬ ((bento_getxattr linux_limits (mount (const_ops 70000 0 zero_mem) ()) 1 "user.x" zero_mem
        100000).ret ≤ (linux_limits.XATTR_SIZE_MAX : Int)) := by
  decide

/-- C13 (amended): in fill mode (size > 0) the dispatchers apply no ceiling of
their own: a non-negative result of `bento_getxattr` is the backend's return
value, and a non-negative result of `bento_listxattr` is at most the backend's
return value; so the result is at most XATTR_SIZE_MAX, respectively
XATTR_LIST_MAX, whenever the backend's return value is. -/
theorem fill_mode_result_bounded_by_backend {β : Type} (lim : Limits) (w : World β)
    (size : Nat) (hsize : 0 < size) :
    (∀ inode name value,
      (0 ≤ (bento_getxattr lim w inode name value size).ret →
        (bento_getxattr lim w inode name value size).ret
          = (call_getxattr w inode name value size).1.ret) ∧
      ((call_getxattr w inode name value size).1.ret ≤ (lim.XATTR_SIZE_MAX : Int) →
        (bento_getxattr lim w inode name value size).ret ≤ (lim.XATTR_SIZE_MAX : Int))) ∧
    (∀ allowed inode list,
      (0 ≤ (bento_listxattr lim w allowed inode list size).ret →
        (bento_listxattr lim w allowed inode list size).ret
          ≤ (call_listxattr w inode list size).1.ret) ∧
      ((call_listxattr w inode list size).1.ret ≤ (lim.XATTR_LIST_MAX : Int) →
        (bento_listxattr lim w allowed inode list size).ret ≤ (lim.XATTR_LIST_MAX : Int))) := by
  have hs : size ≠ 0 := by omega
  constructor
  · intro inode name value
    simp only [bento_getxattr, ENOSYS, EOPNOTSUPP]
    split_ifs <;> simp_all <;> omega
  · intro allowed inode list
    have hv := verify_eio_or_cast (call_listxattr w inode list size).1.data
      (call_listxattr w inode list size).1.ret
    have hc := int_cast_le_of_nonneg (call_listxattr w inode list size).1.ret
    simp only [bento_listxattr, ENOSYS, EOPNOTSUPP, EACCES, EIO] at hv ⊢
    split_ifs <;> simp_all <;> omega

/-- Witness of C13 (amended): the backend returns 12 to a fill-mode get and 4
to a fill-mode list over a buffer of 16 bytes. -/
theorem fill_mode_result_bounded_by_backend_witness :
    (bento_getxattr linux_limits (mount (const_ops 12 0 zero_mem) ()) 1 "user.x" zero_mem
        16).ret ≤ 65536 ∧
    (bento_listxattr linux_limits (mount (const_ops 4 0 alt_mem) ()) true 1 zero_mem
        16).ret ≤ 65536 :=
  ⟨((fill_mode_result_bounded_by_backend linux_limits (mount (const_ops 12 0 zero_mem) ()) 16
      (by decide)).1 1 "user.x" zero_mem).2 (by decide),
   ((fill_mode_result_bounded_by_backend linux_limits (mount (const_ops 4 0 alt_mem) ()) 16
      (by decide)).2 true 1 zero_mem).2 (by decide)⟩

/-- C16: in size-query mode (size = 0) the list validator does not run and
the caller buffer plays no part. Two calls that differ only in the buffer
passed in, and to which the backend gives the same return code and reported
size, return the same value and leave the same flags and trace (the same world
when the backend also ends in the same state); and the result is -EIO only
when the backend itself returned -EIO. -/
theorem size_query_list_ignores_buffer {β : Type} (lim : Limits) (w : World β)
    (allowed : Bool) (inode : Nat) (list1 list2 : Mem)
    (hret : (call_listxattr w inode list1 0).1.ret = (call_listxattr w inode list2 0).1.ret)
    (hsz : (call_listxattr w inode list1 0).1.outarg.size
      = (call_listxattr w inode list2 0).1.outarg.size) :
    (bento_listxattr lim w allowed inode list1 0).ret
      = (bento_listxattr lim w allowed inode list2 0).ret ∧
    (bento_listxattr lim w allowed inode list1 0).world.fc.no_setxattr
      = (bento_listxattr lim w allowed inode list2 0).world.fc.no_setxattr ∧
    (bento_listxattr lim w allowed inode list1 0).world.fc.no_getxattr
      = (bento_listxattr lim w allowed inode list2 0).world.fc.no_getxattr ∧
    (bento_listxattr lim w allowed inode list1 0).world.fc.no_listxattr
      = (bento_listxattr lim w allowed inode list2 0).world.fc.no_listxattr ∧
    (bento_listxattr lim w allowed inode list1 0).world.fc.no_removexattr
      = (bento_listxattr lim w allowed inode list2 0).world.fc.no_removexattr ∧
    (bento_listxattr lim w allowed inode list1 0).world.trace
      = (bento_listxattr lim w allowed inode list2 0).world.trace ∧
    ((call_listxattr w inode list1 0).2 = (call_listxattr w inode list2 0).2 →
      (bento_listxattr lim w allowed inode list1 0).world
        = (bento_listxattr lim w allowed inode list2 0).world) ∧
    ((bento_listxattr lim w allowed inode list1 0).ret = - EIO →
      (call_listxattr w inode list1 0).1.ret = - EIO) := by
  simp only [bento_listxattr, ENOSYS, EOPNOTSUPP, EACCES, EIO, hret, hsz]
  split_ifs <;> simp_all
  omega

/-- Witness of C16: a buffer of well-formed entries and an all-NUL (malformed)
buffer, in size-query mode against the same backend answer. -/
theorem size_query_list_ignores_buffer_witness :
    (bento_listxattr linux_limits (mount (const_ops 0 12 zero_mem) ()) true 1 alt_mem 0).ret
      = (bento_listxattr linux_limits (mount (const_ops 0 12 zero_mem) ()) true 1 zero_mem 0).ret :=
  (size_query_list_ignores_buffer linux_limits (mount (const_ops 0 12 zero_mem) ()) true 1
    alt_mem zero_mem rfl rfl).1

/-- C18: the capability flags are independent per operation kind. Each
dispatcher leaves the flags of the other three operations exactly as they
were, whatever the arguments and the backend's answer; hence along any
sequence of calls an operation's flag can only be changed by calls of that
operation, and a backend lacking one operation never makes another one
short-circuit. -/
theorem flags_are_independent {β : Type} (lim : Limits) (w : World β) :
    (∀ inode name value size flags,
      (bento_setxattr w inode name value size flags).2.fc.no_getxattr = w.fc.no_getxattr ∧
      (bento_setxattr w inode name value size flags).2.fc.no_listxattr = w.fc.no_listxattr ∧
      (bento_setxattr w inode name value size flags).2.fc.no_removexattr
        = w.fc.no_removexattr) ∧
    (∀ inode name value size,
      (bento_getxattr lim w inode name value size).world.fc.no_setxattr = w.fc.no_setxattr ∧
      (bento_getxattr lim w inode name value size).world.fc.no_listxattr = w.fc.no_listxattr ∧
      (bento_getxattr lim w inode name value size).world.fc.no_removexattr
        = w.fc.no_removexattr) ∧
    (∀ allowed inode list size,
      (bento_listxattr lim w allowed inode list size).world.fc.no_setxattr
        = w.fc.no_setxattr ∧
      (bento_listxattr lim w allowed inode list size).world.fc.no_getxattr
        = w.fc.no_getxattr ∧
      (bento_listxattr lim w allowed inode list size).world.fc.no_removexattr
        = w.fc.no_removexattr) ∧
    (∀ inode name,
      (bento_removexattr w inode name).2.fc.no_setxattr = w.fc.no_setxattr ∧
      (bento_removexattr w inode name).2.fc.no_getxattr = w.fc.no_getxattr ∧
      (bento_removexattr w inode name).2.fc.no_listxattr = w.fc.no_listxattr) ∧
    (∀ (op : Op) (reqs : List Request), (∀ r ∈ reqs, r.op ≠ op) →
      op.flag (run lim w reqs).fc = op.flag w.fc) := by
  refine ⟨?_, ?_, ?_, ?_, ?_⟩
  · intro inode name value size flags
    exact (setxattr_flags w inode name value size flags).2
  · intro inode name value size
    exact (getxattr_flags lim w inode name value size).2
  · intro allowed inode list size
    exact (listxattr_flags lim w allowed inode list size).2
  · intro inode name
    exact (removexattr_flags w inode name).2
  · intro op reqs h
    exact run_other_flags lim reqs w op h

/-- Witness of C18: a backend without any operation (-ENOSYS throughout); after
a set and a removal the get flag is still false and a get reaches the
backend. -/
theorem flags_are_independent_witness :
    Op.get.flag (run linux_limits (mount (const_ops (-38) 0 zero_mem) ())
      [Request.setxattr 1 "user.x" none 0 0, Request.removexattr 1 "user.x"]).fc = false ∧
    Op.set.flag (run linux_limits (mount (const_ops (-38) 0 zero_mem) ())
      [Request.setxattr 1 "user.x" none 0 0, Request.removexattr 1 "user.x"]).fc = true :=
  ⟨(flags_are_independent linux_limits (mount (const_ops (-38) 0 zero_mem) ())).2.2.2.2 Op.get
      [Request.setxattr 1 "user.x" none 0 0, Request.removexattr 1 "user.x"] (by decide),
   by decide⟩

/-- C14: round trip over the reference key-value backend, from a connection
with all flags false and any initial store. Setting `name` to the bytes `v`
returns 0, and a following get with a buffer of size at least the length of
`v` returns that length with the buffer holding exactly `v`. A following
removal returns 0, and a get after it returns the backend's not-found error
-ENODATA, which is not -EOPNOTSUPP, with all four flags still false. -/
theorem set_get_remove_round_trip (lim : Limits) (s : kv_store) (inode : Nat) (name : String)
    (v : List Nat) (flags : Int) (buf buf2 : Mem) (size size2 : Nat)
    (hsize : v.length ≤ size) :
    (bento_setxattr (mount kv_ops s) inode name (some (Mem.ofList v)) v.length flags).1 = 0 ∧
    (bento_getxattr lim
      (bento_setxattr (mount kv_ops s) inode name (some (Mem.ofList v)) v.length flags).2
      inode name buf size).ret = (v.length : Int) ∧
    Mem.bytes (bento_getxattr lim
      (bento_setxattr (mount kv_ops s) inode name (some (Mem.ofList v)) v.length flags).2
      inode name buf size).buf v.length = v ∧
    (bento_removexattr (bento_getxattr lim
      (bento_setxattr (mount kv_ops s) inode name (some (Mem.ofList v)) v.length flags).2
      inode name buf size).world inode name).1 = 0 ∧
    (bento_getxattr lim (bento_removexattr (bento_getxattr lim
      (bento_setxattr (mount kv_ops s) inode name (some (Mem.ofList v)) v.length flags).2
      inode name buf size).world inode name).2 inode name buf2 size2).ret = -ENODATA ∧
    (bento_getxattr lim (bento_removexattr (bento_getxattr lim
      (bento_setxattr (mount kv_ops s) inode name (some (Mem.ofList v)) v.length flags).2
      inode name buf size).world inode name).2 inode name buf2 size2).ret ≠ -EOPNOTSUPP ∧
    (∀ op : Op, op.flag (bento_getxattr lim (bento_removexattr (bento_getxattr lim
      (bento_setxattr (mount kv_ops s) inode name (some (Mem.ofList v)) v.length flags).2
      inode name buf size).world inode name).2 inode name buf2 size2).world.fc = false) := by
  have hset : bento_setxattr (mount kv_ops s) inode name (some (Mem.ofList v)) v.length flags
      = (0, (World.mk (mount kv_ops s).fc (kv_put s inode name v)
        [Event.fs_setxattr, Event.invalidate_attr inode, Event.update_ctime inode])) := by
    simp [bento_setxattr, call_setxattr, mount, kv_ops, ENOSYS, bento_update_ctime,
      bento_invalidate_attr, bytes_ofList]
  rw [hset]
  have hget : ∃ b : Mem, Mem.bytes b v.length = v ∧
      bento_getxattr lim (World.mk (mount kv_ops s).fc (kv_put s inode name v)
        [Event.fs_setxattr, Event.invalidate_attr inode, Event.update_ctime inode]) inode name buf size
        = { ret := (v.length : Int), buf := b,
            world := (World.mk (mount kv_ops s).fc (kv_put s inode name v)
        [Event.fs_setxattr, Event.invalidate_attr inode, Event.update_ctime inode, Event.fs_getxattr]) } := by
    by_cases h0 : size = 0
    · subst h0
      have hv : v = [] := List.length_eq_zero.mp (by omega)
      subst hv
      refine ⟨buf, by simp [Mem.bytes], ?_⟩
      simp [bento_getxattr, call_getxattr, mount, kv_ops, kv_get_put, kv_reply, ENOSYS]
    · have hlt : ¬ (size < v.length) := by omega
      refine ⟨buf.write v, bytes_write buf v, ?_⟩
      have hne : ¬ ((v.length : Int) = -38) := by omega
      simp [bento_getxattr, call_getxattr, mount, kv_ops, kv_get_put, kv_reply, ENOSYS, h0, hlt,
        hne]
  obtain ⟨b, hb, hg⟩ := hget
  simp only [hg]
  have hrm : bento_removexattr (World.mk (mount kv_ops s).fc (kv_put s inode name v)
        [Event.fs_setxattr, Event.invalidate_attr inode, Event.update_ctime inode, Event.fs_getxattr]) inode name
      = (0, (World.mk (mount kv_ops s).fc (kv_del (kv_put s inode name v) inode name)
        [Event.fs_setxattr, Event.invalidate_attr inode, Event.update_ctime inode,
         Event.fs_getxattr, Event.fs_removexattr, Event.invalidate_attr inode,
         Event.update_ctime inode])) := by
    simp [bento_removexattr, call_removexattr, mount, kv_ops, ENOSYS, bento_update_ctime,
      bento_invalidate_attr]
  simp only [hrm]
  have hg2 : bento_getxattr lim (World.mk (mount kv_ops s).fc (kv_del (kv_put s inode name v) inode name)
        [Event.fs_setxattr, Event.invalidate_attr inode, Event.update_ctime inode,
         Event.fs_getxattr, Event.fs_removexattr, Event.invalidate_attr inode,
         Event.update_ctime inode]) inode name buf2 size2
      = { ret := -ENODATA, buf := buf2,
          world := (World.mk (mount kv_ops s).fc (kv_del (kv_put s inode name v) inode name)
        [Event.fs_setxattr, Event.invalidate_attr inode, Event.update_ctime inode,
         Event.fs_getxattr, Event.fs_removexattr, Event.invalidate_attr inode,
         Event.update_ctime inode, Event.fs_getxattr]) } := by
    simp [bento_getxattr, call_getxattr, mount, kv_ops, kv_get_del, ENOSYS, ENODATA, zero_mem]
  simp only [hg2]
  refine ⟨trivial, trivial, hb, trivial, trivial, by decide, ?_⟩
  intro op
  cases op <;> rfl

/-- Witness of C14: name "user.x" and value "v" (one byte, 118) on node 1 of an
empty store, read back into a buffer of 16 bytes. -/
theorem set_get_remove_round_trip_witness :
    (bento_getxattr linux_limits
      (bento_setxattr (mount kv_ops []) 1 "user.x" (some (Mem.ofList [118])) 1 0).2
      1 "user.x" zero_mem 16).ret = 1 ∧
    Mem.bytes (bento_getxattr linux_limits
      (bento_setxattr (mount kv_ops []) 1 "user.x" (some (Mem.ofList [118])) 1 0).2
      1 "user.x" zero_mem 16).buf 1 = [118] ∧
    (bento_getxattr linux_limits (bento_removexattr (bento_getxattr linux_limits
      (bento_setxattr (mount kv_ops []) 1 "user.x" (some (Mem.ofList [118])) 1 0).2
      1 "user.x" zero_mem 16).world 1 "user.x").2 1 "user.x" zero_mem 16).ret = -ENODATA :=
  have h := set_get_remove_round_trip linux_limits [] 1 "user.x" [118] 0 zero_mem zero_mem
    16 16 (by decide)
  ⟨h.2.1, h.2.2.1, h.2.2.2.2.1⟩

/-- Where the byte-level description holds as meant: for every buffer and
every n > 0 that the validator's `int` result can hold (n up to INT_MAX),
`bento_verify_xattr_list(list, n)` returns n if and only if list[0] is not
NUL, list[n-1] is NUL and no two adjacent bytes among the first n are both
NUL, and returns -EIO otherwise; for n = 0 it returns 0. -/
theorem verify_byte_level (list : Mem) (n : Nat) (hn : n ≤ 2147483647) :
    (0 < n → (bento_verify_xattr_list list n = (n : Int) ↔ ByteLevelOk list n)) ∧
    (0 < n → ¬ ByteLevelOk list n → bento_verify_xattr_list list n = - EIO) ∧
    bento_verify_xattr_list list 0 = 0 := by
  have hs := verify_small list n hn
  refine ⟨fun hpos => ?_, fun hpos hb => ?_, ?_⟩
  · rw [← wellFormed_iff_byte_level n list hpos]
    refine ⟨fun h => ?_, hs.1⟩
    by_contra hw
    rw [hs.2 hw] at h
    simp only [ EIO] at h
    omega
  · exact hs.2 (fun hw => hb ((wellFormed_iff_byte_level n list hpos).1 hw))
  · simp [bento_verify_xattr_list, verify_loop, int_cast]

/-- The byte-level description on "a\0bb\0" with n = 5. -/
theorem verify_byte_level_witness :
    ByteLevelOk (Mem.ofList [97, 0, 98, 98, 0]) 5 ∧
    bento_verify_xattr_list (Mem.ofList [97, 0, 98, 98, 0]) 5 = ((5 : Nat) : Int) :=
  have hb : ByteLevelOk (Mem.ofList [97, 0, 98, 98, 0]) 5 := by
    refine ⟨by simp [Mem.ofList], by simp [Mem.ofList], ?_⟩
    intro i hi
    have : i = 0 ∨ i = 1 ∨ i = 2 ∨ i = 3 := by omega
    rcases this with rfl | rfl | rfl | rfl <;> simp [Mem.ofList]
  ⟨hb, ((verify_byte_level (Mem.ofList [97, 0, 98, 98, 0]) 5 (by decide)).1 (by decide)).2 hb⟩

/-- C17 (counterexample): for n = 1 over a NUL byte the loop has not returned
after n/2 = 0 iterations; it returns -EIO in its first iteration. -/
theorem verify_needs_one_more_iteration :
    verify_iter 1 zero_mem (1 / 2) { pos := 0, size := 1 } = none ∧
    verify_iter 1 zero_mem (1 / 2 + 1) { pos := 0, size := 1 } = some (- EIO) := by
  decide

/-- C17 (amended): the loop of `bento_verify_xattr_list` is total and its
`size_t` arithmetic never wraps. For every buffer and every size n, in each
iteration that does not return -EIO the run length satisfies
0 < thislen < size, so thislen + 1 <= size, neither `thislen + 1` nor
`size -= thislen + 1` wraps, and the remaining size strictly decreases; the
scan position plus the remaining size stays n, so the position never passes
offset n; at most n/2 iterations do not return -EIO, and the loop has returned
the function's result after at most n/2 + 1 iterations (after at most n/2 when
the list is well formed). -/
theorem verify_loop_total_no_wrap (list : Mem) (n : Nat) (hn : n < SIZE_MOD) :
    (∀ k v v', verify_vars_after list n k = some v → v.size ≠ 0 →
      verify_body list v = some v' →
        0 < verify_thislen list v ∧ verify_thislen list v < v.size ∧
        verify_thislen list v + 1 ≤ v.size ∧
        size_t_add (verify_thislen list v) 1 = verify_thislen list v + 1 ∧
        size_t_sub v.size (size_t_add (verify_thislen list v) 1)
          = v.size - (verify_thislen list v + 1) ∧
        v'.size < v.size ∧ v'.pos ≤ n) ∧
    (∀ k v, verify_vars_after list n k = some v →
      v.pos + v.size = n ∧ v.pos ≤ n ∧ 2 * k ≤ v.pos) ∧
    (∀ k, n / 2 < k → verify_vars_after list n k = none) ∧
    verify_iter n list (n / 2 + 1) { pos := 0, size := n }
      = some (bento_verify_xattr_list list n) ∧
    (WellFormedList (Mem.bytes list n) →
      verify_iter n list (n / 2) { pos := 0, size := n }
        = some (bento_verify_xattr_list list n)) := by
  refine ⟨?_, ?_, ?_, ?_, ?_⟩
  · intro k v v' hk _ hb
    have hi := verify_vars_after_inv list n hn k v hk
    have hs := verify_body_some list v v' (by omega) hb
    refine ⟨hs.1, hs.2.1, by omega, hs.2.2.1, hs.2.2.2.1, by omega, by omega⟩
  · intro k v hk
    have hi := verify_vars_after_inv list n hn k v hk
    exact ⟨hi.1, by omega, hi.2⟩
  · intro k hk
    cases h : verify_vars_after list n k with
    | none => rfl
    | some v =>
      have hi := verify_vars_after_inv list n hn k v h
      omega
  · exact verify_iter_eq n list (n / 2 + 1) { pos := 0, size := n } hn (le_refl _)
  · intro hw
    rw [verify_iter_accept n list (n / 2) { pos := 0, size := n } hn (le_refl _) hw]
    exact congrArg some ((verify_loop_spec n n list hn).1 hw).symm

/-- Witness of C17 (amended): on "a\0bb\0" with n = 5 the function has
returned within 5/2 + 1 iterations, and there is no third iteration that does
not return. -/
theorem verify_loop_total_no_wrap_witness :
    verify_iter 5 (Mem.ofList [97, 0, 98, 98, 0]) (5 / 2 + 1) { pos := 0, size := 5 }
      = some (bento_verify_xattr_list (Mem.ofList [97, 0, 98, 98, 0]) 5) ∧
    verify_vars_after (Mem.ofList [97, 0, 98, 98, 0]) 5 3 = none :=
  ⟨(verify_loop_total_no_wrap (Mem.ofList [97, 0, 98, 98, 0]) 5 (by decide)).2.2.2.1,
   (verify_loop_total_no_wrap (Mem.ofList [97, 0, 98, 98, 0]) 5 (by decide)).2.2.1 3
     (by decide)⟩

end Bento
